import Mathlib

/-!
Verification development for the `zustand-immer-lite` repository: a reactive
state container with a proxy-tracked computed-value engine (`src/create.ts`),
a keyed asynchronous query cache with request-id race safety, staleness,
deduplication and LRU eviction (`src/query.ts`), and an infinite-pagination
variant (`src/infinite-query.ts`).

JavaScript `Map`s keyed by strings are embedded as association lists over
`String`; machine timestamps (`Date.now()`) are embedded as `Int` so that
`now - fetchedAt < staleTime` has exactly the source's arithmetic; object
identity (JS `===` on cache-entry objects) is embedded by tagging every
allocated entry object with a fresh allocation id, and `===` on payload
values (`data`, `error`) is embedded as equality of opaque tokens.
Asynchronous fetches are split at the single `await` point into a `...Start`
step (the guards, request-id allocation and loading commit, everything before
the `await`) and a `...Resolve` step (the continuation after the promise
settles, given its outcome).
-/

namespace ZIL

/-- Association-list lookup, embedding `Map.get`. -/
def lookupA {α : Type} : List (String × α) → String → Option α
  | [], _ => none
  | (k', v) :: t, k => if k' = k then some v else lookupA t k

/-- Association-list update, embedding `Map.set`: replaces the binding for
`k` in place if present, otherwise appends it. -/
def setA {α : Type} : List (String × α) → String → α → List (String × α)
  | [], k, v => [(k, v)]
  | (k', v') :: t, k, v => if k' = k then (k, v) :: t else (k', v') :: setA t k v

/-- Association-list removal, embedding `Map.delete`: removes the (first)
binding for `k`. -/
def delA {α : Type} : List (String × α) → String → List (String × α)
  | [], _ => []
  | (k', v') :: t, k => if k' = k then t else (k', v') :: delA t k

/-- Delete every key in `ks` from the association list, embedding a
`for (const key of toRemove) map.delete(key)` loop. -/
def removeKeysA {α : Type} (ks : List String) (l : List (String × α)) : List (String × α) :=
  ks.foldl delA l

/-- Remove the first occurrence of `k` from a list of keys, embedding
`const idx = arr.indexOf(key); if (idx !== -1) arr.splice(idx, 1)`. -/
def removeFirst : List String → String → List String
  | [], _ => []
  | k' :: t, k => if k' = k then t else k' :: removeFirst t k

/-! ## Plain query store (`src/query.ts`, `createQueryHook`) -/

/-- The fields of a `CacheEntry<T>`: `{ data, loading, error, fetchedAt }`.
`data : Option T` embeds `T | undefined` (`none` = `undefined`); `error`
embeds `Error | null` as an opaque token (`none` = `null`); `fetchedAt`
is a millisecond timestamp. -/
structure EntryF (T : Type) where
  data : Option T
  loading : Bool
  error : Option Nat
  fetchedAt : Int
  deriving DecidableEq

/-- A heap-allocated cache-entry object: its fields plus an allocation id
standing for the object's identity, so that JS `===` between entry objects
is equality of `Obj` values (distinct allocations get distinct ids). -/
structure Obj (T : Type) where
  oid : Nat
  f : EntryF T
  deriving DecidableEq

/-- Query config after defaulting: `staleTime ?? 0` and
`maxCacheSize ?? DEFAULT_MAX_CACHE_SIZE (= 50)` are already applied. -/
structure QueryCfg where
  staleTime : Int
  maxCacheSize : Nat

/-- The per-hook mutable state captured by `createQueryHook`'s closure:
`cache`, per-key listener sets (embedded as their sizes), `snapshotCache`
(pairs `{ entry, snapshot }`), `inflightId`, `accessOrder`, and the
`nextRequestId` counter.  `nextOid` is the allocation counter backing
object identity. -/
structure QueryStore (T : Type) where
  cache : List (String × Obj T)
  listenerCount : List (String × Nat)
  snapshotCache : List (String × (Obj T × Obj T))
  inflightId : List (String × Nat)
  accessOrder : List String
  nextRequestId : Nat
  nextOid : Nat
  deriving DecidableEq

/-- The store a fresh `createQueryHook` closure starts from. -/
def emptyQStore (T : Type) : QueryStore T :=
  { cache := [], listenerCount := [], snapshotCache := [], inflightId := [],
    accessOrder := [], nextRequestId := 0, nextOid := 0 }

/-- The default entry created on first access:
`{ data: undefined, loading: false, error: null, fetchedAt: 0 }`. -/
def defaultEntryF (T : Type) : EntryF T :=
  { data := none, loading := false, error := none, fetchedAt := 0 }

/-- `getEntry(key)`: returns the cached entry, lazily creating (and
inserting) a default one when absent.  Returns the possibly-extended store
together with the entry object. -/
def getEntry {T : Type} (s : QueryStore T) (k : String) : QueryStore T × Obj T :=
  match lookupA s.cache k with
  | some e => (s, e)
  | none =>
    let e : Obj T := { oid := s.nextOid, f := defaultEntryF T }
    ({ s with cache := setA s.cache k e, nextOid := s.nextOid + 1 }, e)

/-- `touchKey(key)`: move `key` to the most-recently-touched end of
`accessOrder`. -/
def touchKey {T : Type} (s : QueryStore T) (k : String) : QueryStore T :=
  { s with accessOrder := removeFirst s.accessOrder k ++ [k] }

/-- `setEntry(key, entry)`: store a freshly allocated entry object, touch the
key, and update the snapshot cache — when the cached `{entry, snapshot}`
pair's entry has the same `data`, `loading` and `error` references as the
new entry, only `cached.entry` is repointed and the snapshot object is kept;
otherwise a fresh snapshot object `{...entry}` is allocated. -/
def setEntry {T : Type} [DecidableEq T] (s : QueryStore T) (k : String) (ef : EntryF T) :
    QueryStore T :=
  let e : Obj T := { oid := s.nextOid, f := ef }
  let s1 := { s with cache := setA s.cache k e, nextOid := s.nextOid + 1 }
  let s2 := touchKey s1 k
  match lookupA s2.snapshotCache k with
  | some (ent, snap) =>
    if ent.f.data = ef.data ∧ ent.f.loading = ef.loading ∧ ent.f.error = ef.error then
      { s2 with snapshotCache := setA s2.snapshotCache k (e, snap) }
    else
      let snapObj : Obj T := { oid := s2.nextOid, f := ef }
      { s2 with snapshotCache := setA s2.snapshotCache k (e, snapObj),
                nextOid := s2.nextOid + 1 }
  | none =>
    let snapObj : Obj T := { oid := s2.nextOid, f := ef }
    { s2 with snapshotCache := setA s2.snapshotCache k (e, snapObj),
              nextOid := s2.nextOid + 1 }

/-- `getSnapshot(key)`: returns the stable snapshot object for the key —
the cached snapshot when `cached.entry === entry`, otherwise a freshly
allocated copy `{...entry}` recorded in the snapshot cache. -/
def getSnapshot {T : Type} [DecidableEq T] (s : QueryStore T) (k : String) :
    QueryStore T × Obj T :=
  let p := getEntry s k
  let s1 := p.1
  let entry := p.2
  match lookupA s1.snapshotCache k with
  | some (ent, snap) =>
    if ent = entry then (s1, snap)
    else
      let snapObj : Obj T := { oid := s1.nextOid, f := entry.f }
      ({ s1 with snapshotCache := setA s1.snapshotCache k (entry, snapObj),
                 nextOid := s1.nextOid + 1 }, snapObj)
  | none =>
    let snapObj : Obj T := { oid := s1.nextOid, f := entry.f }
    ({ s1 with snapshotCache := setA s1.snapshotCache k (entry, snapObj),
               nextOid := s1.nextOid + 1 }, snapObj)

/-- An in-flight fetch attempt: the key it was issued for and the request id
`++nextRequestId` allocated for it. -/
structure Pending where
  key : String
  reqId : Nat
  deriving DecidableEq

/-- The part of `fetchData(key, args, force)` that runs before `await
config.fn(...)`: the staleness guard, the dedup guard, request-id
allocation, and the loading commit.  Returns `some pending` exactly when
the fetch function is invoked. -/
def fetchDataStart {T : Type} [DecidableEq T] (cfg : QueryCfg) (s : QueryStore T)
    (k : String) (now : Int) (force : Bool) : QueryStore T × Option Pending :=
  let p := getEntry s k
  let s0 := p.1
  let entry := p.2
  if force = false ∧ entry.f.data ≠ none ∧ 0 < entry.f.fetchedAt ∧
      now - entry.f.fetchedAt < cfg.staleTime then
    (s0, none)
  else if force = false ∧ entry.f.loading = true then
    (s0, none)
  else
    let requestId := s0.nextRequestId + 1
    let s1 := { s0 with nextRequestId := requestId,
                        inflightId := setA s0.inflightId k requestId }
    let s2 := setEntry s1 k { entry.f with loading := true, error := none }
    (s2, some { key := k, reqId := requestId })

/-- The continuation of `fetchData` after `config.fn` settles: on success,
commit `{data, loading:false, error:null, fetchedAt:now}` if the request id
is still the latest for the key; on failure, commit
`{...prev, loading:false, error}` if still latest; otherwise the resolution
is discarded and the store is untouched. -/
def fetchDataResolve {T : Type} [DecidableEq T] (s : QueryStore T) (p : Pending)
    (res : Except Nat T) (now : Int) : QueryStore T :=
  match res with
  | .ok d =>
    if lookupA s.inflightId p.key = some p.reqId then
      setEntry s p.key { data := some d, loading := false, error := none, fetchedAt := now }
    else s
  | .error e =>
    if lookupA s.inflightId p.key = some p.reqId then
      let q := getEntry s p.key
      setEntry q.1 p.key { q.2.f with loading := false, error := some e }
    else s

/-- Whether `evict` may remove `key`: it has no active listeners, its entry
exists and is not loading. -/
def evictable {T : Type} (s : QueryStore T) (k : String) : Bool :=
  let hasListeners : Bool :=
    match lookupA s.listenerCount k with
    | some n => n != 0
    | none => false
  match lookupA s.cache k with
  | some e => !hasListeners && !e.f.loading
  | none => false

/-- The collection loop of `evict`: walk `accessOrder` oldest-first, stopping
once `cache.size - toRemove.length <= maxCacheSize`, collecting evictable
keys. -/
def collectRemove {T : Type} (s : QueryStore T) (maxSize : Nat) :
    List String → List String → List String
  | [], acc => acc
  | k :: rest, acc =>
    if s.cache.length - acc.length ≤ maxSize then acc
    else if evictable s k then collectRemove s maxSize rest (acc ++ [k])
    else collectRemove s maxSize rest acc

/-- The keys an eviction pass removes (`toRemove`), including the size
pre-check `if (cache.size <= maxCacheSize) return`. -/
def evictRemoved {T : Type} (cfg : QueryCfg) (s : QueryStore T) : List String :=
  if s.cache.length ≤ cfg.maxCacheSize then []
  else collectRemove s cfg.maxCacheSize s.accessOrder []

/-- `evict()`: remove each collected key from `cache`, `snapshotCache`,
`inflightId` and `accessOrder`. -/
def evict {T : Type} (cfg : QueryCfg) (s : QueryStore T) : QueryStore T :=
  let toRemove := evictRemoved cfg s
  { s with cache := removeKeysA toRemove s.cache,
           snapshotCache := removeKeysA toRemove s.snapshotCache,
           inflightId := removeKeysA toRemove s.inflightId,
           accessOrder := toRemove.foldl removeFirst s.accessOrder }

/-- The `data` field of the entry currently cached for `k`, if any. -/
def entryData {T : Type} (s : QueryStore T) (k : String) : Option T :=
  match lookupA s.cache k with
  | some e => e.f.data
  | none => none

/-- The entry fields currently cached for `k`, if any. -/
def entryFields {T : Type} (s : QueryStore T) (k : String) : Option (EntryF T) :=
  match lookupA s.cache k with
  | some e => some e.f
  | none => none

/-! ## Spec-modelled plain-store imperative methods

The repository's `types.ts` declares `setQueryData` and `optimisticUpdate`
on every query hook and `tests/prefetch.test.tsx` exercises them, but the
file implementing them for the plain query hook is not part of the source
snapshot (only the infinite-query variant's `setQueryData` is). -/

/-- Modelled from the spec: the plain-store `setQueryData(key, value)` is
missing from the source snapshot; per the spec it is a "synchronous cache
write" that "bumps fetchedAt to now" and notifies listeners (mirroring the
infinite variant's implementation `setEntry(key, {...entry, data, fetchedAt:
Date.now()})`). -/
def setQueryData {T : Type} [DecidableEq T] (s : QueryStore T) (k : String)
    (newData : T) (now : Int) : QueryStore T :=
  let p := getEntry s k
  setEntry p.1 k { p.2.f with data := some newData, fetchedAt := now }

/-- One observable event of an `optimisticUpdate` run, in invocation order:
the synchronous application of the updater, then the `onSuccess` or
`onError` callback, then `onSettled`. -/
inductive OUEvent (T R : Type) where
  | applied (v : T)
  | successCb (r : R)
  | errorCb (e : Nat) (snapshot : Option T)
  | settled
  deriving DecidableEq

/-- Modelled from the spec: `optimisticUpdate({args, updater, mutationFn,
onSuccess?, onError?, onSettled?})` is declared in `types.ts` and tested but
its implementation is missing from the source snapshot.  Per the spec:
snapshot the current data, synchronously apply `updater(prevData)` to the
cache, await the remote operation; on success invoke `onSuccess(result)` and
keep the optimistic data; on failure roll the entry back to the snapshotted
data, invoke `onError(error, snapshotData)` and rethrow; always invoke
`onSettled()` last.  The remote operation's outcome is passed in as `remote`;
callback invocations are returned as an ordered event trace, and the
rethrown-or-returned outcome as the final component. -/
def optimisticUpdate {T R : Type} [DecidableEq T] (s : QueryStore T) (k : String)
    (updater : Option T → T) (remote : Except Nat R) (now : Int) :
    QueryStore T × List (OUEvent T R) × Except Nat R :=
  let prevData := entryData s k
  let newData := updater prevData
  let s1 := setQueryData s k newData now
  match remote with
  | .ok r => (s1, [.applied newData, .successCb r, .settled], .ok r)
  | .error e =>
    let q := getEntry s1 k
    let s2 := setEntry q.1 k { q.2.f with data := prevData }
    (s2, [.applied newData, .errorCb e prevData, .settled], .error e)

/-! ## Computed engine (`src/create.ts`)

A derivation function is embedded as a read-tree `CFun`: `read k cont`
performs one proxied access of field `k` (which the tracking proxy records
into `accessed`) and continues with the value found, so the set of fields a
derivation reads may depend on the values it sees — exactly the behavior of
`trackDeps`' `Proxy`.  `Object.is` on state/derivation values is embedded as
equality of opaque tokens `V`. -/

inductive CFun (V : Type) where
  | ret (v : V)
  | read (k : String) (cont : Option V → CFun V)

/-- `trackDeps(fn, stateObj)`: run the derivation against the tracking proxy
over `stateObj`, returning its result and the list of field names accessed. -/
def trackDeps {V : Type} : CFun V → List (String × V) → V × List String
  | .ret v, _ => (v, [])
  | .read k cont, st =>
    let r := trackDeps (cont (lookupA st k)) st
    (r.1, k :: r.2)

/-- The loop state of one `recompute()` pass: the composite `stateObj`
(raw fields plus derivations resolved so far), the `changedKeys` set, the
recorded dependency sets, the cached results, and the keys whose derivation
function was invoked during this pass (the invocation counter). -/
structure CompAcc (V : Type) where
  stateObj : List (String × V)
  changed : List String
  deps : List (String × List String)
  cached : List (String × V)
  invoked : List String
  deriving DecidableEq

/-- The recompute-and-record arm of the per-derivation loop body: invoke the
function with dependency tracking, record its accessed set, mark the key
changed when the result differs (by `Object.is`) from the previous cached
result (`Object.is(result, undefined)` is false when the key was never
cached), store the result. -/
def recomputeRun {V : Type} [DecidableEq V] (acc : CompAcc V) (key : String)
    (fn : CFun V) : CompAcc V :=
  let r := trackDeps fn acc.stateObj
  let result := r.1
  let accessed := r.2
  { stateObj := setA acc.stateObj key result,
    changed := if some result ≠ lookupA acc.cached key then acc.changed ++ [key]
               else acc.changed,
    deps := setA acc.deps key accessed,
    cached := setA acc.cached key result,
    invoked := acc.invoked ++ [key] }

/-- One iteration of `recompute()`'s `for (const key of computedKeys)` loop:
skip (reusing the cached value) when a cached result exists, a dependency
set is recorded, it is non-empty, and none of its members is in
`changedKeys`; otherwise recompute. -/
def recomputeStep {V : Type} [DecidableEq V] (acc : CompAcc V) (key : String)
    (fn : CFun V) : CompAcc V :=
  match lookupA acc.cached key, lookupA acc.deps key with
  | some c, some ds =>
    if ds ≠ [] ∧ ∀ d ∈ ds, d ∉ acc.changed then
      { acc with stateObj := setA acc.stateObj key c }
    else recomputeRun acc key fn
  | some _, none => recomputeRun acc key fn
  | none, _ => recomputeRun acc key fn

/-- The whole per-derivation loop, in declaration order. -/
def recomputeLoop {V : Type} [DecidableEq V] :
    List (String × CFun V) → CompAcc V → CompAcc V
  | [], acc => acc
  | (k, fn) :: rest, acc => recomputeLoop rest (recomputeStep acc k fn)

/-- The computed engine's persistent state across passes: recorded
dependency sets, cached results, and the previous raw state used for
diffing. -/
structure CompState (V : Type) where
  deps : List (String × List String)
  cached : List (String × V)
  prevRaw : Option (List (String × V))
  deriving DecidableEq

/-- The engine state before the first pass. -/
def initialCompState (V : Type) : CompState V :=
  { deps := [], cached := [], prevRaw := none }

/-- The changed-raw-field diff at the start of a pass: on the first pass
every field of `rawState` counts as changed; afterwards exactly the fields
whose value is not `Object.is`-identical to the previous raw state's. -/
def changedRawKeys {V : Type} [DecidableEq V] (rawState : List (String × V))
    (prevRaw : Option (List (String × V))) : List String :=
  match prevRaw with
  | none => rawState.map Prod.fst
  | some prev =>
    (rawState.map Prod.fst).filter fun k => decide (lookupA rawState k ≠ lookupA prev k)

/-- `recompute()` for one state replacement: diff the raw state, run the
per-derivation loop, and rebuild `exposedState = { ...rawState,
...computedValues }`.  Returns the new engine state, the exposed state, the
list of derivation keys invoked this pass, and the final `changedKeys`
set. -/
def recompute {V : Type} [DecidableEq V] (computedCfg : List (String × CFun V))
    (rawState : List (String × V)) (cs : CompState V) :
    CompState V × List (String × V) × List String × List String :=
  let changed0 := changedRawKeys rawState cs.prevRaw
  let acc0 : CompAcc V :=
    { stateObj := rawState, changed := changed0, deps := cs.deps,
      cached := cs.cached, invoked := [] }
  let acc := recomputeLoop computedCfg acc0
  let exposed := computedCfg.foldl
    (fun st kf =>
      match lookupA acc.cached kf.1 with
      | some v => setA st kf.1 v
      | none => st)
    rawState
  ({ deps := acc.deps, cached := acc.cached, prevRaw := some rawState },
   exposed, acc.invoked, acc.changed)

/-! ## Infinite query store (`src/infinite-query.ts`, `createInfiniteQueryHook`)

`P` is the page type, `C` the cursor (page-parameter) type; a page parameter
is `Option C`, with `none` embedding the sentinel `undefined` cursor of the
initial page (and a `getNextPageParam`/`getPreviousPageParam` result of
`none` embedding `null`/`undefined`, the `== null` no-more-pages check).
The per-key `snapshotCache` of this hook is not modelled: it mirrors entries
for `useSyncExternalStore` and never feeds back into the cache state that
the fetch operations read. -/

/-- `InfiniteData<T>`: the ordered pages and their 1:1 page parameters. -/
structure InfData (P C : Type) where
  pages : List P
  pageParams : List (Option C)
  deriving DecidableEq

/-- An `InfiniteCacheEntry<T>`. -/
structure IEntryF (P C : Type) where
  data : Option (InfData P C)
  loading : Bool
  error : Option Nat
  fetchedAt : Int
  isFetchingNextPage : Bool
  isFetchingPreviousPage : Bool
  deriving DecidableEq

/-- Infinite-query config after defaulting `staleTime ?? 0`.  The page-param
functions receive the last (resp. first) page as `Option P` because JS
indexing an empty `pages` array yields `undefined`. -/
structure InfCfg (P C : Type) where
  staleTime : Int
  getNextPageParam : Option P → List P → Option C
  getPreviousPageParam : Option (Option P → List P → Option C)

/-- The closure state of `createInfiniteQueryHook` that the fetch operations
read and write. -/
structure InfStore (P C : Type) where
  cache : List (String × IEntryF P C)
  inflightId : List (String × Nat)
  accessOrder : List String
  nextRequestId : Nat
  deriving DecidableEq

/-- The store a fresh `createInfiniteQueryHook` closure starts from. -/
def emptyIStore (P C : Type) : InfStore P C :=
  { cache := [], inflightId := [], accessOrder := [], nextRequestId := 0 }

/-- The default infinite entry created on first access. -/
def defaultIEntryF (P C : Type) : IEntryF P C :=
  { data := none, loading := false, error := none, fetchedAt := 0,
    isFetchingNextPage := false, isFetchingPreviousPage := false }

/-- The infinite store's `getEntry(key)`. -/
def getIEntry {P C : Type} (s : InfStore P C) (k : String) :
    InfStore P C × IEntryF P C :=
  match lookupA s.cache k with
  | some e => (s, e)
  | none =>
    let e := defaultIEntryF P C
    ({ s with cache := setA s.cache k e }, e)

/-- The infinite store's `setEntry(key, entry)`: store and touch the key. -/
def setIEntry {P C : Type} (s : InfStore P C) (k : String) (e : IEntryF P C) :
    InfStore P C :=
  { s with cache := setA s.cache k e,
           accessOrder := removeFirst s.accessOrder k ++ [k] }

/-- `fetchInitial(key, args, force)` before `await config.fn(...args,
undefined)`: the same staleness and dedup guards as the plain store,
request-id allocation, and the loading commit. -/
def fetchInitialStart {P C : Type} [DecidableEq P] [DecidableEq C]
    (cfg : InfCfg P C) (s : InfStore P C)
    (k : String) (now : Int) (force : Bool) : InfStore P C × Option Pending :=
  let p := getIEntry s k
  let s0 := p.1
  let entry := p.2
  if force = false ∧ entry.data ≠ none ∧ 0 < entry.fetchedAt ∧
      now - entry.fetchedAt < cfg.staleTime then
    (s0, none)
  else if force = false ∧ entry.loading = true then
    (s0, none)
  else
    let requestId := s0.nextRequestId + 1
    let s1 := { s0 with nextRequestId := requestId,
                        inflightId := setA s0.inflightId k requestId }
    let s2 := setIEntry s1 k { entry with loading := true, error := none }
    (s2, some { key := k, reqId := requestId })

/-- `fetchInitial`'s continuation: on success, if the request id is still the
latest, commit a one-page entry whose only page parameter is the sentinel
`undefined`; on failure, if still latest, keep the entry and set its error. -/
def fetchInitialResolve {P C : Type} (s : InfStore P C) (p : Pending)
    (res : Except Nat P) (now : Int) : InfStore P C :=
  match res with
  | .ok firstPage =>
    if lookupA s.inflightId p.key = some p.reqId then
      setIEntry s p.key
        { data := some { pages := [firstPage], pageParams := [none] },
          loading := false, error := none, fetchedAt := now,
          isFetchingNextPage := false, isFetchingPreviousPage := false }
    else s
  | .error e =>
    if lookupA s.inflightId p.key = some p.reqId then
      let q := getIEntry s p.key
      setIEntry q.1 p.key { q.2 with loading := false, error := some e }
    else s

/-- `fetchNext(key, args)` before `await config.fn(...args, nextParam)`:
no-op when there is no data yet, a next-page fetch is already in flight, or
`getNextPageParam(lastPage, pages)` is `null`/`undefined`; otherwise mark
`isFetchingNextPage` and return the cursor the fetch was issued with. -/
def fetchNextStart {P C : Type} (cfg : InfCfg P C) (s : InfStore P C)
    (k : String) : InfStore P C × Option C :=
  let p := getIEntry s k
  let s0 := p.1
  let entry := p.2
  match entry.data with
  | none => (s0, none)
  | some d =>
    if entry.isFetchingNextPage then (s0, none)
    else
      match cfg.getNextPageParam d.pages.getLast? d.pages with
      | none => (s0, none)
      | some c =>
        (setIEntry s0 k { entry with isFetchingNextPage := true }, some c)

/-- `fetchNext`'s continuation: on success, if the entry still has data,
append the page and its cursor to `pages`/`pageParams`; on failure, clear
`isFetchingNextPage` and set the error, leaving `data` untouched. -/
def fetchNextResolve {P C : Type} (s : InfStore P C) (k : String) (c : C)
    (res : Except Nat P) (now : Int) : InfStore P C :=
  match res with
  | .ok page =>
    let q := getIEntry s k
    match q.2.data with
    | some d =>
      setIEntry q.1 k
        { q.2 with
          data := some { pages := d.pages ++ [page],
                         pageParams := d.pageParams ++ [some c] },
          isFetchingNextPage := false, fetchedAt := now }
    | none => q.1
  | .error e =>
    let q := getIEntry s k
    setIEntry q.1 k { q.2 with isFetchingNextPage := false, error := some e }

/-- `fetchPrevious(key, args)` before the `await`: additionally a no-op when
no `getPreviousPageParam` is configured; otherwise symmetric to
`fetchNextStart` on the first page. -/
def fetchPreviousStart {P C : Type} (cfg : InfCfg P C) (s : InfStore P C)
    (k : String) : InfStore P C × Option C :=
  let p := getIEntry s k
  let s0 := p.1
  let entry := p.2
  match entry.data, cfg.getPreviousPageParam with
  | none, _ => (s0, none)
  | some _, none => (s0, none)
  | some d, some gpp =>
    if entry.isFetchingPreviousPage then (s0, none)
    else
      match gpp d.pages.head? d.pages with
      | none => (s0, none)
      | some c =>
        (setIEntry s0 k { entry with isFetchingPreviousPage := true }, some c)

/-- `fetchPrevious`'s continuation: on success, if the entry still has data,
prepend the page and its cursor; on failure, clear `isFetchingPreviousPage`
and set the error. -/
def fetchPreviousResolve {P C : Type} (s : InfStore P C) (k : String) (c : C)
    (res : Except Nat P) (now : Int) : InfStore P C :=
  match res with
  | .ok page =>
    let q := getIEntry s k
    match q.2.data with
    | some d =>
      setIEntry q.1 k
        { q.2 with
          data := some { pages := page :: d.pages,
                         pageParams := some c :: d.pageParams },
          isFetchingPreviousPage := false, fetchedAt := now }
    | none => q.1
  | .error e =>
    let q := getIEntry s k
    setIEntry q.1 k { q.2 with isFetchingPreviousPage := false, error := some e }

/-- `hook.invalidate(...args)`: reset `fetchedAt` so the next `ensure`
treats the entry as stale, keeping its data. -/
def invalidateI {P C : Type} (s : InfStore P C) (k : String) : InfStore P C :=
  match lookupA s.cache k with
  | some e => setIEntry s k { e with fetchedAt := 0 }
  | none => s

/-- The per-entry shape invariant of claim C6 restricted to its first,
code-true conjunct: an entry with defined data has as many page parameters
as pages. -/
def lenInvB {P C : Type} (e : IEntryF P C) : Bool :=
  match e.data with
  | some d => d.pages.length == d.pageParams.length
  | none => true

/-- `lenInvB` for every cached entry of the store. -/
def storeLenInvB {P C : Type} (s : InfStore P C) : Bool :=
  s.cache.all fun pr => lenInvB pr.2

/-! ## Concrete instances for witnesses and counterexamples -/

/-- A query config with a 10ms staleness window. -/
def exCfg : QueryCfg := { staleTime := 10, maxCacheSize := 50 }

/-- A query config with a ceiling of 2 entries, for eviction runs. -/
def exCfgSmall : QueryCfg := { staleTime := 0, maxCacheSize := 2 }

/-- A fetched entry holding data `1` at time 5. -/
def exFreshF : EntryF Nat :=
  { data := some 1, loading := false, error := none, fetchedAt := 5 }

/-- A store whose only entry has defined data but `fetchedAt = 0` (the state
`invalidate` produces). -/
def exStoreInvalidated : QueryStore Nat :=
  { cache := [("k", ⟨0, ⟨some 1, false, none, 0⟩⟩)],
    listenerCount := [], snapshotCache := [], inflightId := [],
    accessOrder := ["k"], nextRequestId := 0, nextOid := 1 }

/-- A store whose only entry is fresh (data defined, fetchedAt 5). -/
def exStoreFresh : QueryStore Nat :=
  { cache := [("k", { oid := 0, f := exFreshF })],
    listenerCount := [], snapshotCache := [], inflightId := [],
    accessOrder := ["k"], nextRequestId := 0, nextOid := 1 }

/-- A store whose only entry is loading. -/
def exStoreLoading : QueryStore Nat :=
  { cache := [("k", ⟨0, ⟨none, true, none, 0⟩⟩)],
    listenerCount := [], snapshotCache := [], inflightId := [("k", 1)],
    accessOrder := ["k"], nextRequestId := 1, nextOid := 1 }

/-- Four fetched entries `a`..`d`, a listener on `c` only, ceiling 2:
an eviction pass must drop `a` and `b`. -/
def exStoreEvict : QueryStore Nat :=
  { cache := [("a", { oid := 0, f := exFreshF }), ("b", { oid := 1, f := exFreshF }),
              ("c", { oid := 2, f := exFreshF }), ("d", { oid := 3, f := exFreshF })],
    listenerCount := [("c", 1)],
    snapshotCache := [], inflightId := [],
    accessOrder := ["a", "b", "c", "d"], nextRequestId := 0, nextOid := 4 }

/-- The store after issuing one forced fetch for `"k"` on an empty store. -/
def exC1s1 : QueryStore Nat :=
  (fetchDataStart exCfg (emptyQStore Nat) "k" 0 true).1

/-- The store after issuing a second forced fetch for `"k"`. -/
def exC1s2 : QueryStore Nat :=
  (fetchDataStart exCfg exC1s1 "k" 0 true).1

/-- The store after one non-forced fetch was issued for `"k"` on an empty
store (the entry is loading with request id 1). -/
def exC3s1 : QueryStore Nat :=
  (fetchDataStart exCfg (emptyQStore Nat) "k" 0 false).1

/-- `exC3s1` after its fetch resolved successfully at time 5. -/
def exC3resolved : QueryStore Nat :=
  fetchDataResolve exC3s1 { key := "k", reqId := 1 } (Except.ok 7) 5

/-- A store with one committed entry and its snapshot cached (what a
`setEntry` on the empty store produces). -/
def exC9s : QueryStore Nat :=
  setEntry (emptyQStore Nat) "k"
    { data := some 1, loading := false, error := none, fetchedAt := 3 }

/-- An infinite-query config whose next cursor is last page + 1 and which
has no previous-page function. -/
def exInfCfgNext : InfCfg Nat Nat :=
  { staleTime := 0,
    getNextPageParam := fun lp _ => some (lp.getD 0 + 1),
    getPreviousPageParam := none }

/-- An infinite-query config with no further next pages but a constant
previous-page cursor 7. -/
def exInfCfgPrev : InfCfg Nat Nat :=
  { staleTime := 0,
    getNextPageParam := fun _ _ => none,
    getPreviousPageParam := some (fun _ _ => some 7) }

/-- An infinite store holding one fetched page `100` for `"k"` (the result
of an initial fetch resolved at time 5). -/
def exIStorePage (cfg : InfCfg Nat Nat) : InfStore Nat Nat :=
  fetchInitialResolve (fetchInitialStart cfg (emptyIStore Nat Nat) "k" 0 false).1
    { key := "k", reqId := 1 } (Except.ok 100) 5

/-- `exIStorePage exInfCfgPrev` after a successful previous-page fetch with
cursor 7 returning page `99`. -/
def exC6final : InfStore Nat Nat :=
  let r := fetchPreviousStart exInfCfgPrev (exIStorePage exInfCfgPrev) "k"
  fetchPreviousResolve r.1 "k" (r.2.getD 0) (Except.ok 99) 6

/-- A derivation reading the raw field `x` and adding 1. -/
def exDerivX : CFun Nat := .read "x" (fun v => .ret (v.getD 0 + 1))

/-- A derivation reading the raw field `y` and adding 1. -/
def exDerivY : CFun Nat := .read "y" (fun v => .ret (v.getD 0 + 1))

/-- A derivation reading the earlier derivation `dx` and doubling it. -/
def exDerivChain : CFun Nat := .read "dx" (fun v => .ret (v.getD 0 * 2))

/-- A derivation reading no fields at all. -/
def exDerivConst : CFun Nat := .ret 5

/-- A two-derivation config: `dx` reads `x`, `dd` reads `dx`. -/
def exCompCfg : List (String × CFun Nat) :=
  [("dx", exDerivX), ("dd", exDerivChain)]

/-- The engine state after a first pass of `exCompCfg` over `x=1, y=2`. -/
def exCompPass1 : CompState Nat :=
  (recompute exCompCfg [("x", 1), ("y", 2)] (initialCompState Nat)).1

/-- The engine state after a first pass of a constant derivation over
`x=1`. -/
def exConstPass1 : CompState Nat :=
  (recompute [("c", exDerivConst)] [("x", 1)] (initialCompState Nat)).1

/-- The infinite store after one non-forced initial fetch was issued for
`"k"` on an empty store. -/
def exI1 : InfStore Nat Nat :=
  (fetchInitialStart exInfCfgNext (emptyIStore Nat Nat) "k" 0 false).1

/-- `exIStorePage exInfCfgNext` after a next-page fetch was issued
(cursor 101). -/
def exC7s1 : InfStore Nat Nat :=
  (fetchNextStart exInfCfgNext (exIStorePage exInfCfgNext) "k").1

/-! ## Association-list lemmas -/

theorem lookupA_setA_self {α : Type} (l : List (String × α)) (k : String) (v : α) :
    lookupA (setA l k v) k = some v := by
  induction l with
  | nil => simp [setA, lookupA]
  | cons h t ih =>
    obtain ⟨k', v'⟩ := h
    by_cases hk : k' = k
    · subst hk; simp [setA, lookupA]
    · simp [setA, lookupA, hk, ih]

theorem lookupA_setA_ne {α : Type} (l : List (String × α)) {k k' : String} (v : α)
    (h : k' ≠ k) : lookupA (setA l k v) k' = lookupA l k' := by
  induction l with
  | nil => simp [setA, lookupA, Ne.symm h]
  | cons hd t ih =>
    obtain ⟨k₀, v₀⟩ := hd
    by_cases hk : k₀ = k
    · subst hk
      simp [setA, lookupA, Ne.symm h]
    · simp [setA, lookupA, hk, ih]

theorem lookupA_delA_ne {α : Type} (l : List (String × α)) {k k' : String}
    (h : k' ≠ k) : lookupA (delA l k) k' = lookupA l k' := by
  induction l with
  | nil => simp [delA]
  | cons hd t ih =>
    obtain ⟨k₀, v₀⟩ := hd
    by_cases hk : k₀ = k
    · subst hk
      simp [delA, lookupA, Ne.symm h]
    · simp [delA, lookupA, hk, ih]

theorem lookupA_removeKeysA_notMem {α : Type} {k : String} (ks : List String) :
    ∀ l : List (String × α), k ∉ ks →
      lookupA (removeKeysA ks l) k = lookupA l k := by
  induction ks with
  | nil => intro l _; simp [removeKeysA]
  | cons k₀ t ih =>
    intro l h
    have hne : k ≠ k₀ := by
      intro hh
      exact h (hh ▸ List.mem_cons_self k₀ t)
    have ht : k ∉ t := fun hh => h (List.mem_cons_of_mem _ hh)
    have h1 : removeKeysA (k₀ :: t) l = removeKeysA t (delA l k₀) := by
      simp [removeKeysA]
    rw [h1, ih (delA l k₀) ht, lookupA_delA_ne l hne]

/-! ## Plain-store operation lemmas -/

theorem getEntry_fst_inflightId {T : Type} (s : QueryStore T) (k : String) :
    (getEntry s k).1.inflightId = s.inflightId := by
  unfold getEntry
  cases lookupA s.cache k <;> rfl

theorem getEntry_fst_nextRequestId {T : Type} (s : QueryStore T) (k : String) :
    (getEntry s k).1.nextRequestId = s.nextRequestId := by
  unfold getEntry
  cases lookupA s.cache k <;> rfl

theorem getEntry_fst_listenerCount {T : Type} (s : QueryStore T) (k : String) :
    (getEntry s k).1.listenerCount = s.listenerCount := by
  unfold getEntry
  cases lookupA s.cache k <;> rfl

theorem setEntry_inflightId {T : Type} [DecidableEq T] (s : QueryStore T)
    (k : String) (ef : EntryF T) : (setEntry s k ef).inflightId = s.inflightId := by
  unfold setEntry touchKey
  dsimp only
  split
  · split <;> rfl
  · rfl

theorem setEntry_nextRequestId {T : Type} [DecidableEq T] (s : QueryStore T)
    (k : String) (ef : EntryF T) :
    (setEntry s k ef).nextRequestId = s.nextRequestId := by
  unfold setEntry touchKey
  dsimp only
  split
  · split <;> rfl
  · rfl

theorem setEntry_listenerCount {T : Type} [DecidableEq T] (s : QueryStore T)
    (k : String) (ef : EntryF T) :
    (setEntry s k ef).listenerCount = s.listenerCount := by
  unfold setEntry touchKey
  dsimp only
  split
  · split <;> rfl
  · rfl

theorem setEntry_cache {T : Type} [DecidableEq T] (s : QueryStore T)
    (k : String) (ef : EntryF T) :
    (setEntry s k ef).cache = setA s.cache k { oid := s.nextOid, f := ef } := by
  unfold setEntry touchKey
  dsimp only
  split
  · split <;> rfl
  · rfl

theorem entryFields_setEntry_self {T : Type} [DecidableEq T] (s : QueryStore T)
    (k : String) (ef : EntryF T) : entryFields (setEntry s k ef) k = some ef := by
  rw [entryFields, setEntry_cache, lookupA_setA_self]

theorem entryData_setEntry_self {T : Type} [DecidableEq T] (s : QueryStore T)
    (k : String) (ef : EntryF T) : entryData (setEntry s k ef) k = ef.data := by
  rw [entryData, setEntry_cache, lookupA_setA_self]

/-- Extraction lemma: what `fetchDataStart` guarantees whenever it actually
invokes the fetch function. -/
theorem fetchDataStart_some {T : Type} [DecidableEq T] {cfg : QueryCfg}
    {s s' : QueryStore T} {k : String} {now : Int} {force : Bool} {p : Pending}
    (h : fetchDataStart cfg s k now force = (s', some p)) :
    p.key = k ∧ p.reqId = s.nextRequestId + 1 ∧
    s'.nextRequestId = s.nextRequestId + 1 ∧
    lookupA s'.inflightId k = some p.reqId ∧
    ∃ ob, lookupA s'.cache k = some ob ∧
      ob.f = { (getEntry s k).2.f with loading := true, error := none } := by
  unfold fetchDataStart at h
  dsimp only at h
  split at h
  · simp at h
  · split at h
    · simp at h
    · simp only [Prod.mk.injEq, Option.some.injEq] at h
      obtain ⟨hs, hp⟩ := h
      subst hs
      subst hp
      refine ⟨rfl, ?_, ?_, ?_, ?_⟩
      · simp [getEntry_fst_nextRequestId]
      · simp [setEntry_nextRequestId, getEntry_fst_nextRequestId]
      · simp [setEntry_inflightId, getEntry_fst_inflightId, lookupA_setA_self]
      · refine ⟨{ oid := (getEntry s k).1.nextOid,
                  f := { (getEntry s k).2.f with loading := true, error := none } },
                ?_, rfl⟩
        rw [setEntry_cache, lookupA_setA_self]

/-- A resolution whose request id is no longer the latest issued for its key
is discarded: the store is untouched. -/
theorem fetchDataResolve_stale {T : Type} [DecidableEq T] {s : QueryStore T}
    {p : Pending} (res : Except Nat T) (now : Int)
    (h : lookupA s.inflightId p.key ≠ some p.reqId) :
    fetchDataResolve s p res now = s := by
  unfold fetchDataResolve
  cases res <;> simp [h]

theorem fetchDataResolve_ok_latest {T : Type} [DecidableEq T] {s : QueryStore T}
    {p : Pending} (d : T) (now : Int)
    (h : lookupA s.inflightId p.key = some p.reqId) :
    fetchDataResolve s p (Except.ok d) now =
      setEntry s p.key { data := some d, loading := false, error := none,
                         fetchedAt := now } := by
  unfold fetchDataResolve
  simp [h]

/-- C1.  For every cache key, if fetch attempt A is issued and then fetch
attempt B is issued for that key, then regardless of the order in which the
two promises settle, the entry's final data is B's result: resolving A after
B leaves the store exactly unchanged (its request id is superseded), and in
both resolution orders the committed data is `dB`. -/
theorem C1_last_issued_wins {T : Type} [DecidableEq T] {cfg : QueryCfg}
    {s s1 s2 : QueryStore T} {k : String} {tA tB : Int} {fA fB : Bool}
    {pA pB : Pending} (dB : T) (rB : Int) (resA : Except Nat T) (rA : Int)
    (h1 : fetchDataStart cfg s k tA fA = (s1, some pA))
    (h2 : fetchDataStart cfg s1 k tB fB = (s2, some pB)) :
    fetchDataResolve (fetchDataResolve s2 pB (Except.ok dB) rB) pA resA rA
      = fetchDataResolve s2 pB (Except.ok dB) rB ∧
    entryData (fetchDataResolve (fetchDataResolve s2 pB (Except.ok dB) rB)
      pA resA rA) k = some dB ∧
    entryData (fetchDataResolve (fetchDataResolve s2 pA resA rA)
      pB (Except.ok dB) rB) k = some dB := by
  obtain ⟨hAkey, hAid, hAnext, _, _⟩ := fetchDataStart_some h1
  obtain ⟨hBkey, hBid, _, hBinfl, _⟩ := fetchDataStart_some h2
  have hne : pA.reqId ≠ pB.reqId := by
    rw [hAid, hBid, hAnext]
    omega
  have hBlatest : lookupA s2.inflightId pB.key = some pB.reqId := by
    rw [hBkey]; exact hBinfl
  have hAstale : lookupA s2.inflightId pA.key ≠ some pA.reqId := by
    rw [hAkey, ← hBkey, hBlatest]
    intro hc
    exact hne (Option.some.injEq _ _ ▸ hc :).symm
  have hres : fetchDataResolve s2 pB (Except.ok dB) rB =
      setEntry s2 pB.key { data := some dB, loading := false, error := none,
                           fetchedAt := rB } :=
    fetchDataResolve_ok_latest dB rB hBlatest
  have hinfl3 : lookupA (fetchDataResolve s2 pB (Except.ok dB) rB).inflightId
      pA.key ≠ some pA.reqId := by
    rw [hres, setEntry_inflightId]
    exact hAstale
  have hdiscard := fetchDataResolve_stale resA rA hinfl3
  refine ⟨hdiscard, ?_, ?_⟩
  · rw [hdiscard, hres, ← hBkey, entryData_setEntry_self]
  · rw [fetchDataResolve_stale resA rA hAstale, hres, ← hBkey,
      entryData_setEntry_self]

/-- Witness for C1: on a concrete store, issue two forced fetches for `"k"`
(request ids 1 and 2); with B resolving to 20 and A to 10, both resolution
orders leave the entry's data at 20. -/
theorem C1_last_issued_wins_witness :
    entryData (fetchDataResolve (fetchDataResolve exC1s2
        { key := "k", reqId := 2 } (Except.ok 20) 5)
        { key := "k", reqId := 1 } (Except.ok 10) 6) "k" = some 20 ∧
    entryData (fetchDataResolve (fetchDataResolve exC1s2
        { key := "k", reqId := 1 } (Except.ok 10) 6)
        { key := "k", reqId := 2 } (Except.ok 20) 5) "k" = some 20 := by
  have h1 : fetchDataStart exCfg (emptyQStore Nat) "k" 0 true =
      (exC1s1, some { key := "k", reqId := 1 }) := by decide
  have h2 : fetchDataStart exCfg exC1s1 "k" 0 true =
      (exC1s2, some { key := "k", reqId := 2 }) := by decide
  have h := C1_last_issued_wins 20 5 (Except.ok 10) 6 h1 h2
  exact ⟨h.2.1, h.2.2⟩

/-! ## Guard no-op lemmas for `fetchData` -/

theorem getEntry_of_lookup {T : Type} {s : QueryStore T} {k : String} {e : Obj T}
    (h : lookupA s.cache k = some e) : getEntry s k = (s, e) := by
  unfold getEntry
  rw [h]

/-- The staleness guard: a non-forced fetch on an entry with defined data, a
positive `fetchedAt` and `now - fetchedAt < staleTime` is a no-op. -/
theorem fetchDataStart_noop_fresh {T : Type} [DecidableEq T] {cfg : QueryCfg}
    {s : QueryStore T} {k : String} {now : Int} {e : Obj T}
    (hlk : lookupA s.cache k = some e) (hd : e.f.data ≠ none)
    (hfa : 0 < e.f.fetchedAt) (hst : now - e.f.fetchedAt < cfg.staleTime) :
    fetchDataStart cfg s k now false = (s, none) := by
  unfold fetchDataStart
  dsimp only
  rw [getEntry_of_lookup hlk]
  dsimp only
  rw [if_pos ⟨rfl, hd, hfa, hst⟩]

/-- The dedup guard: a non-forced fetch on a loading entry is a no-op. -/
theorem fetchDataStart_noop_loading {T : Type} [DecidableEq T] {cfg : QueryCfg}
    {s : QueryStore T} {k : String} {now : Int} {e : Obj T}
    (hlk : lookupA s.cache k = some e) (hld : e.f.loading = true) :
    fetchDataStart cfg s k now false = (s, none) := by
  unfold fetchDataStart
  dsimp only
  rw [getEntry_of_lookup hlk]
  dsimp only
  by_cases h1 : (false = false ∧ e.f.data ≠ none ∧ 0 < e.f.fetchedAt ∧
      now - e.f.fetchedAt < cfg.staleTime)
  · rw [if_pos h1]
  · rw [if_neg h1, if_pos ⟨rfl, hld⟩]

/-- A forced fetch always proceeds to invoke the fetch function. -/
theorem fetchDataStart_forced_isSome {T : Type} [DecidableEq T] (cfg : QueryCfg)
    (s : QueryStore T) (k : String) (now : Int) :
    ((fetchDataStart cfg s k now true).2).isSome = true := by
  unfold fetchDataStart
  dsimp only
  simp

/-! ## Infinite-store operation lemmas -/

theorem getIEntry_of_lookup {P C : Type} {s : InfStore P C} {k : String}
    {e : IEntryF P C} (h : lookupA s.cache k = some e) : getIEntry s k = (s, e) := by
  unfold getIEntry
  rw [h]

theorem getIEntry_fst_inflightId {P C : Type} (s : InfStore P C) (k : String) :
    (getIEntry s k).1.inflightId = s.inflightId := by
  unfold getIEntry
  cases lookupA s.cache k <;> rfl

theorem getIEntry_fst_nextRequestId {P C : Type} (s : InfStore P C) (k : String) :
    (getIEntry s k).1.nextRequestId = s.nextRequestId := by
  unfold getIEntry
  cases lookupA s.cache k <;> rfl

/-- Extraction lemma: what `fetchInitialStart` guarantees whenever it
actually invokes the fetch function. -/
theorem fetchInitialStart_some {P C : Type} [DecidableEq P] [DecidableEq C]
    {cfg : InfCfg P C} {s s' : InfStore P C} {k : String} {now : Int}
    {force : Bool} {p : Pending}
    (h : fetchInitialStart cfg s k now force = (s', some p)) :
    p.key = k ∧ p.reqId = s.nextRequestId + 1 ∧
    s'.nextRequestId = s.nextRequestId + 1 ∧
    lookupA s'.inflightId k = some p.reqId ∧
    lookupA s'.cache k =
      some { (getIEntry s k).2 with loading := true, error := none } := by
  unfold fetchInitialStart at h
  dsimp only at h
  split at h
  · simp at h
  · split at h
    · simp at h
    · simp only [Prod.mk.injEq, Option.some.injEq] at h
      obtain ⟨hs, hp⟩ := h
      subst hs
      subst hp
      refine ⟨rfl, ?_, ?_, ?_, ?_⟩
      · simp [getIEntry_fst_nextRequestId]
      · simp [setIEntry, getIEntry_fst_nextRequestId]
      · simp [setIEntry, getIEntry_fst_inflightId, lookupA_setA_self]
      · simp [setIEntry, lookupA_setA_self]

/-- C10.  Whenever a fetch attempt proceeds past the staleness and dedup
guards — for the plain query store's `fetchData` and the infinite store's
`fetchInitial` alike — the entry committed before the fetch function is
awaited has `loading = true` and `error = null` (clearing any previously
stored error) while keeping the previous data. -/
theorem C10_loading_committed_before_await :
    (∀ (T : Type) [DecidableEq T] (cfg : QueryCfg) (s s' : QueryStore T)
        (k : String) (now : Int) (force : Bool) (p : Pending),
      fetchDataStart cfg s k now force = (s', some p) →
      ∃ ob : Obj T, lookupA s'.cache k = some ob ∧
        ob.f.loading = true ∧ ob.f.error = none ∧
        ob.f.data = (getEntry s k).2.f.data) ∧
    (∀ (P C : Type) [DecidableEq P] [DecidableEq C] (cfg : InfCfg P C)
        (s s' : InfStore P C) (k : String) (now : Int) (force : Bool) (p : Pending),
      fetchInitialStart cfg s k now force = (s', some p) →
      ∃ e : IEntryF P C, lookupA s'.cache k = some e ∧
        e.loading = true ∧ e.error = none ∧ e.data = (getIEntry s k).2.data) := by
  constructor
  · intro T _ cfg s s' k now force p h
    obtain ⟨_, _, _, _, ob, hlk, hf⟩ := fetchDataStart_some h
    exact ⟨ob, hlk, by rw [hf], by rw [hf], by rw [hf]⟩
  · intro P C _ _ cfg s s' k now force p h
    obtain ⟨_, _, _, _, hlk⟩ := fetchInitialStart_some h
    exact ⟨_, hlk, rfl, rfl, rfl⟩

/-- Witness for C10: a non-forced fetch issued on an empty plain store and
on an empty infinite store each commit a loading, error-free entry. -/
theorem C10_loading_committed_before_await_witness :
    (∃ ob : Obj Nat, lookupA exC3s1.cache "k" = some ob ∧
      ob.f.loading = true ∧ ob.f.error = none ∧
      ob.f.data = (getEntry (emptyQStore Nat) "k").2.f.data) ∧
    (∃ e : IEntryF Nat Nat, lookupA exI1.cache "k" = some e ∧
      e.loading = true ∧ e.error = none ∧
      e.data = (getIEntry (emptyIStore Nat Nat) "k").2.data) := by
  constructor
  · exact C10_loading_committed_before_await.1 Nat exCfg (emptyQStore Nat) exC3s1
      "k" 0 false { key := "k", reqId := 1 } (by decide)
  · exact C10_loading_committed_before_await.2 Nat Nat exInfCfgNext
      (emptyIStore Nat Nat) exI1 "k" 0 false { key := "k", reqId := 1 } (by decide)

/-- Counterexample for C3 as stated: an entry with defined data whose
`fetchedAt` is 0 (exactly what `invalidate` produces) and `now - fetchedAt <
staleTime` is NOT a no-op — the fetch function is invoked, because the code
additionally requires `entry.fetchedAt > 0` in the staleness guard. -/
theorem C3_ensure_noop_cex :
    entryData exStoreInvalidated "k" = some 1 ∧
    (5 : Int) - 0 < exCfg.staleTime ∧
    ¬ fetchDataStart exCfg exStoreInvalidated "k" 5 false =
        (exStoreInvalidated, none) ∧
    ((fetchDataStart exCfg exStoreInvalidated "k" 5 false).2).isSome = true := by
  decide

/-- C3 (amended: the staleness no-op additionally requires the entry's
`fetchedAt` to be positive, i.e. not reset by invalidation; likewise the
resolution time `T` must be positive).  A non-forced `ensure` is a no-op on
a fresh entry and on a loading entry; two back-to-back non-forced fetches
invoke the fetch function exactly once; after a fetch resolved at a positive
time `T`, no non-forced fetch before `T + staleTime` invokes the fetch
function; a forced refetch always proceeds. -/
theorem C3_staleness_dedup_amended :
    (∀ (T : Type) [DecidableEq T] (cfg : QueryCfg) (s : QueryStore T)
        (k : String) (now : Int) (e : Obj T),
      lookupA s.cache k = some e → e.f.data ≠ none → 0 < e.f.fetchedAt →
      now - e.f.fetchedAt < cfg.staleTime →
      fetchDataStart cfg s k now false = (s, none)) ∧
    (∀ (T : Type) [DecidableEq T] (cfg : QueryCfg) (s : QueryStore T)
        (k : String) (now : Int) (e : Obj T),
      lookupA s.cache k = some e → e.f.loading = true →
      fetchDataStart cfg s k now false = (s, none)) ∧
    (∀ (T : Type) [DecidableEq T] (cfg : QueryCfg) (s s1 : QueryStore T)
        (k : String) (n1 n2 : Int) (p : Pending),
      fetchDataStart cfg s k n1 false = (s1, some p) →
      fetchDataStart cfg s1 k n2 false = (s1, none)) ∧
    (∀ (T : Type) [DecidableEq T] (cfg : QueryCfg) (s : QueryStore T)
        (k : String) (p : Pending) (d : T) (tRes now : Int),
      lookupA s.inflightId p.key = some p.reqId → p.key = k → 0 < tRes →
      now - tRes < cfg.staleTime →
      fetchDataStart cfg (fetchDataResolve s p (Except.ok d) tRes) k now false =
        (fetchDataResolve s p (Except.ok d) tRes, none)) ∧
    (∀ (T : Type) [DecidableEq T] (cfg : QueryCfg) (s : QueryStore T)
        (k : String) (now : Int),
      ((fetchDataStart cfg s k now true).2).isSome = true) := by
  refine ⟨?_, ?_, ?_, ?_, ?_⟩
  · intro T _ cfg s k now e hlk hd hfa hst
    exact fetchDataStart_noop_fresh hlk hd hfa hst
  · intro T _ cfg s k now e hlk hld
    exact fetchDataStart_noop_loading hlk hld
  · intro T _ cfg s s1 k n1 n2 p h
    obtain ⟨_, _, _, _, ob, hlk, hf⟩ := fetchDataStart_some h
    exact fetchDataStart_noop_loading hlk (by rw [hf])
  · intro T _ cfg s k p d tRes now hlatest hkey htRes hstale
    subst hkey
    rw [fetchDataResolve_ok_latest d tRes hlatest]
    have hlk : lookupA (setEntry s p.key
        { data := some d, loading := false, error := none,
          fetchedAt := tRes }).cache p.key =
        some { oid := s.nextOid,
               f := { data := some d, loading := false, error := none,
                      fetchedAt := tRes } } := by
      rw [setEntry_cache, lookupA_setA_self]
    exact fetchDataStart_noop_fresh hlk (by simp) htRes hstale
  · intro T _ cfg s k now
    exact fetchDataStart_forced_isSome cfg s k now

/-- Witness for C3 (amended), instantiating all five conjuncts on concrete
stores. -/
theorem C3_staleness_dedup_amended_witness :
    fetchDataStart exCfg exStoreFresh "k" 6 false = (exStoreFresh, none) ∧
    fetchDataStart exCfg exStoreLoading "k" 0 false = (exStoreLoading, none) ∧
    fetchDataStart exCfg exC3s1 "k" 0 false = (exC3s1, none) ∧
    fetchDataStart exCfg exC3resolved "k" 6 false = (exC3resolved, none) ∧
    ((fetchDataStart exCfg exStoreFresh "k" 6 true).2).isSome = true := by
  refine ⟨?_, ?_, ?_, ?_, ?_⟩
  · exact C3_staleness_dedup_amended.1 Nat exCfg exStoreFresh "k" 6
      { oid := 0, f := exFreshF } (by decide) (by decide) (by decide) (by decide)
  · exact C3_staleness_dedup_amended.2.1 Nat exCfg exStoreLoading "k" 0
      { oid := 0, f := { data := none, loading := true, error := none, fetchedAt := 0 } }
      (by decide) (by decide)
  · exact C3_staleness_dedup_amended.2.2.1 Nat exCfg (emptyQStore Nat) exC3s1 "k" 0 0
      { key := "k", reqId := 1 } (by decide)
  · exact C3_staleness_dedup_amended.2.2.2.1 Nat exCfg exC3s1 "k"
      { key := "k", reqId := 1 } 7 5 6 (by decide) rfl (by decide) (by decide)
  · exact C3_staleness_dedup_amended.2.2.2.2 Nat exCfg exStoreFresh "k" 6

/-! ## Snapshot-cache lemmas -/

/-- When the snapshot cache's recorded entry is (reference-)equal to the
current cache entry, `getSnapshot` returns the recorded snapshot and leaves
the store untouched. -/
theorem getSnapshot_stable {T : Type} [DecidableEq T] {s : QueryStore T}
    {k : String} {e snap : Obj T}
    (h1 : lookupA s.cache k = some e)
    (h2 : lookupA s.snapshotCache k = some (e, snap)) :
    getSnapshot s k = (s, snap) := by
  unfold getSnapshot
  dsimp only
  rw [getEntry_of_lookup h1]
  dsimp only
  rw [h2]
  dsimp only
  rw [if_pos rfl]

/-- After any `getSnapshot`, the store records exactly the returned snapshot
against the current cache entry for the key. -/
theorem getSnapshot_post {T : Type} [DecidableEq T] (s : QueryStore T) (k : String) :
    ∃ s' snap e, getSnapshot s k = (s', snap) ∧
      lookupA s'.cache k = some e ∧
      lookupA s'.snapshotCache k = some (e, snap) := by
  unfold getSnapshot
  dsimp only
  cases hlk : lookupA s.cache k with
  | some e =>
    rw [getEntry_of_lookup hlk]
    dsimp only
    cases hsc : lookupA s.snapshotCache k with
    | some pr =>
      obtain ⟨ent, snap⟩ := pr
      dsimp only
      by_cases he : ent = e
      · rw [if_pos he]
        refine ⟨s, snap, e, rfl, hlk, ?_⟩
        rw [hsc, he]
      · rw [if_neg he]
        refine ⟨_, _, e, rfl, hlk, ?_⟩
        exact lookupA_setA_self _ _ _
    | none =>
      dsimp only
      refine ⟨_, _, e, rfl, hlk, ?_⟩
      exact lookupA_setA_self _ _ _
  | none =>
    have hget : getEntry s k =
        ({ s with cache := setA s.cache k { oid := s.nextOid, f := defaultEntryF T },
                  nextOid := s.nextOid + 1 },
         { oid := s.nextOid, f := defaultEntryF T }) := by
      unfold getEntry
      rw [hlk]
    rw [hget]
    dsimp only
    cases hsc : lookupA s.snapshotCache k with
    | some pr =>
      obtain ⟨ent, snap⟩ := pr
      dsimp only
      by_cases he : ent = { oid := s.nextOid, f := defaultEntryF T }
      · rw [if_pos he]
        refine ⟨_, snap, { oid := s.nextOid, f := defaultEntryF T }, rfl, ?_, ?_⟩
        · exact lookupA_setA_self _ _ _
        · rw [hsc, he]
      · rw [if_neg he]
        refine ⟨_, _, { oid := s.nextOid, f := defaultEntryF T }, rfl, ?_, ?_⟩
        · exact lookupA_setA_self _ _ _
        · exact lookupA_setA_self _ _ _
    | none =>
      dsimp only
      refine ⟨_, _, { oid := s.nextOid, f := defaultEntryF T }, rfl, ?_, ?_⟩
      · exact lookupA_setA_self _ _ _
      · exact lookupA_setA_self _ _ _

/-- C9.  `getSnapshot` is stable under no-ops: a second `getSnapshot` on the
store left by a first one returns the identical snapshot object and leaves
the store unchanged; and a `setEntry` whose new entry has the same `data`,
`loading` and `error` references as the snapshot cache's recorded entry
keeps the existing snapshot object, so the next `getSnapshot` returns it
unchanged. -/
theorem C9_snapshot_stability :
    (∀ (T : Type) [DecidableEq T] (s : QueryStore T) (k : String),
      getSnapshot (getSnapshot s k).1 k =
        ((getSnapshot s k).1, (getSnapshot s k).2)) ∧
    (∀ (T : Type) [DecidableEq T] (s : QueryStore T) (k : String)
        (ent snap : Obj T) (ef : EntryF T),
      lookupA s.snapshotCache k = some (ent, snap) →
      ef.data = ent.f.data → ef.loading = ent.f.loading → ef.error = ent.f.error →
      (getSnapshot (setEntry s k ef) k).2 = snap) := by
  constructor
  · intro T _ s k
    obtain ⟨s', snap, e, hg, h1, h2⟩ := getSnapshot_post s k
    rw [hg]
    exact getSnapshot_stable h1 h2
  · intro T _ s k ent snap ef hsc hd hl he
    have hcond : ent.f.data = ef.data ∧ ent.f.loading = ef.loading ∧
        ent.f.error = ef.error := ⟨hd.symm, hl.symm, he.symm⟩
    have h1 : lookupA (setEntry s k ef).cache k =
        some { oid := s.nextOid, f := ef } := by
      rw [setEntry_cache, lookupA_setA_self]
    have h2 : lookupA (setEntry s k ef).snapshotCache k =
        some ({ oid := s.nextOid, f := ef }, snap) := by
      unfold setEntry touchKey
      dsimp only
      rw [hsc]
      dsimp only
      rw [if_pos hcond]
      dsimp only
      exact lookupA_setA_self _ _ _
    rw [getSnapshot_stable h1 h2]

/-- Witness for C9: on a store produced by one `setEntry` on the empty
store, a repeated `getSnapshot` is the identity, and a `setEntry` changing
only `fetchedAt` (same `data`, `loading`, `error`) preserves the snapshot
object allocated earlier (allocation id 1). -/
theorem C9_snapshot_stability_witness :
    getSnapshot (getSnapshot exC9s "k").1 "k" =
      ((getSnapshot exC9s "k").1, (getSnapshot exC9s "k").2) ∧
    (getSnapshot (setEntry exC9s "k"
        { data := some 1, loading := false, error := none, fetchedAt := 99 })
      "k").2 =
      { oid := 1, f := { data := some 1, loading := false, error := none,
                          fetchedAt := 3 } } := by
  constructor
  · exact C9_snapshot_stability.1 Nat exC9s "k"
  · exact C9_snapshot_stability.2 Nat exC9s "k"
      { oid := 0, f := { data := some 1, loading := false, error := none, fetchedAt := 3 } }
      { oid := 1, f := { data := some 1, loading := false, error := none, fetchedAt := 3 } }
      { data := some 1, loading := false, error := none, fetchedAt := 99 }
      (by decide) (by decide) (by decide) (by decide)

/-! ## Eviction lemmas -/

/-- What `evictable` means on its components. -/
theorem evictable_spec {T : Type} {s : QueryStore T} {k : String}
    (h : evictable s k = true) :
    ∃ e, lookupA s.cache k = some e ∧ e.f.loading = false ∧
      (∀ n, lookupA s.listenerCount k = some n → n = 0) := by
  unfold evictable at h
  cases hc : lookupA s.cache k with
  | none => rw [hc] at h; simp at h
  | some e =>
    rw [hc] at h
    cases hl : lookupA s.listenerCount k with
    | none =>
      rw [hl] at h
      simp at h
      exact ⟨e, rfl, by simp [h], by intro n hn; simp at hn⟩
    | some n =>
      rw [hl] at h
      simp at h
      refine ⟨e, rfl, by simp [h.2], ?_⟩
      intro m hm
      rw [Option.some.injEq] at hm
      omega

/-- Closed form of the eviction collection loop: it gathers, oldest first,
the evictable keys of `accessOrder`, stopping after `cache.length - maxSize`
of them. -/
theorem collectRemove_eq {T : Type} (s : QueryStore T) (maxSize : Nat) :
    ∀ (order : List String) (acc : List String),
      collectRemove s maxSize order acc =
        acc ++ (order.filter (evictable s)).take
          (s.cache.length - maxSize - acc.length) := by
  intro order
  induction order with
  | nil => intro acc; simp [collectRemove]
  | cons k rest ih =>
    intro acc
    by_cases h1 : s.cache.length - acc.length ≤ maxSize
    · have hz : s.cache.length - maxSize - acc.length = 0 := by omega
      simp only [collectRemove]
      rw [if_pos h1, hz]
      simp
    · by_cases h2 : evictable s k = true
      · have hn : s.cache.length - maxSize - acc.length =
            (s.cache.length - maxSize - (acc.length + 1)) + 1 := by omega
        simp only [collectRemove]
        rw [if_neg h1, if_pos h2, ih (acc ++ [k]), List.filter_cons_of_pos h2,
          hn, List.take_succ_cons]
        simp
      · simp only [collectRemove]
        rw [if_neg h1, if_neg h2, ih acc, List.filter_cons_of_neg h2]

/-- `evictRemoved` in closed form: the oldest `cache.length - maxCacheSize`
evictable keys of `accessOrder`. -/
theorem evictRemoved_eq {T : Type} (cfg : QueryCfg) (s : QueryStore T) :
    evictRemoved cfg s =
      (s.accessOrder.filter (evictable s)).take
        (s.cache.length - cfg.maxCacheSize) := by
  unfold evictRemoved
  by_cases h : s.cache.length ≤ cfg.maxCacheSize
  · rw [if_pos h]
    have hz : s.cache.length - cfg.maxCacheSize = 0 := by omega
    rw [hz, List.take_zero]
  · rw [if_neg h, collectRemove_eq]
    simp

/-- Deleting a present key shortens the association list by exactly one. -/
theorem delA_length {α : Type} {l : List (String × α)} {k : String}
    (h : lookupA l k ≠ none) : l.length = (delA l k).length + 1 := by
  induction l with
  | nil => simp [lookupA] at h
  | cons hd t ih =>
    obtain ⟨k₀, v₀⟩ := hd
    by_cases hk : k₀ = k
    · subst hk
      simp [delA]
    · have h' : lookupA t k ≠ none := by simpa [lookupA, hk] using h
      simp [delA, hk, ih h']

/-- Deleting pairwise-distinct present keys shortens the list by their
count. -/
theorem removeKeysA_length {α : Type} :
    ∀ (ks : List String) (l : List (String × α)), ks.Nodup →
      (∀ k ∈ ks, lookupA l k ≠ none) →
      l.length = (removeKeysA ks l).length + ks.length := by
  intro ks
  induction ks with
  | nil => intro l _ _; simp [removeKeysA]
  | cons k₀ t ih =>
    intro l hnd hpres
    have h₀ : lookupA l k₀ ≠ none := hpres k₀ (List.mem_cons_self _ _)
    have hnd' : t.Nodup := (List.nodup_cons.mp hnd).2
    have hk₀t : k₀ ∉ t := (List.nodup_cons.mp hnd).1
    have hpres' : ∀ k ∈ t, lookupA (delA l k₀) k ≠ none := by
      intro k hk
      have hne : k ≠ k₀ := fun hh => hk₀t (hh ▸ hk)
      rw [lookupA_delA_ne l hne]
      exact hpres k (List.mem_cons_of_mem _ hk)
    have h1 : removeKeysA (k₀ :: t) l = removeKeysA t (delA l k₀) := by
      simp [removeKeysA]
    have h2 := ih (delA l k₀) hnd' hpres'
    have h3 := delA_length h₀
    rw [h1, List.length_cons]
    omega

/-- C4.  For every eviction pass with ceiling `maxCacheSize`: every removed
key had zero active listeners and a non-loading entry; the removed keys are
exactly the oldest (least-recently-touched-first) evictable keys of the
access order, `cache.length - maxCacheSize` of them; the pass leaves the
cache at or under the ceiling unless it ran out of evictable keys, in which
case every evictable key of the access order was removed; and a key with at
least one active listener keeps its cache entry untouched. -/
theorem C4_eviction :
    (∀ (T : Type) (cfg : QueryCfg) (s : QueryStore T) (k : String),
      k ∈ evictRemoved cfg s →
      ∃ e, lookupA s.cache k = some e ∧ e.f.loading = false ∧
        (∀ n, lookupA s.listenerCount k = some n → n = 0)) ∧
    (∀ (T : Type) (cfg : QueryCfg) (s : QueryStore T),
      evictRemoved cfg s =
        (s.accessOrder.filter (evictable s)).take
          (s.cache.length - cfg.maxCacheSize)) ∧
    (∀ (T : Type) (cfg : QueryCfg) (s : QueryStore T),
      s.accessOrder.Nodup →
      ((evict cfg s).cache.length ≤ cfg.maxCacheSize ∨
        ∀ k ∈ s.accessOrder, evictable s k = true → k ∈ evictRemoved cfg s)) ∧
    (∀ (T : Type) (cfg : QueryCfg) (s : QueryStore T) (k : String) (n : Nat),
      lookupA s.listenerCount k = some n → 0 < n →
      lookupA (evict cfg s).cache k = lookupA s.cache k) := by
  refine ⟨?_, ?_, ?_, ?_⟩
  · intro T cfg s k hmem
    rw [evictRemoved_eq] at hmem
    have hkF := List.take_subset _ _ hmem
    exact evictable_spec (List.mem_filter.mp hkF).2
  · intro T cfg s
    exact evictRemoved_eq cfg s
  · intro T cfg s hnodup
    have hcache : (evict cfg s).cache = removeKeysA (evictRemoved cfg s) s.cache :=
      rfl
    by_cases hle : s.cache.length ≤ cfg.maxCacheSize
    · left
      have hz : evictRemoved cfg s = [] := by
        rw [evictRemoved_eq]
        have h0 : s.cache.length - cfg.maxCacheSize = 0 := by omega
        rw [h0, List.take_zero]
      rw [hcache, hz]
      simpa [removeKeysA] using hle
    · by_cases hflen : s.cache.length - cfg.maxCacheSize ≤
          (s.accessOrder.filter (evictable s)).length
      · left
        have hlenR : (evictRemoved cfg s).length =
            s.cache.length - cfg.maxCacheSize := by
          rw [evictRemoved_eq, List.length_take]
          omega
        have hndR : (evictRemoved cfg s).Nodup := by
          rw [evictRemoved_eq]
          exact (List.take_sublist _ _).nodup (hnodup.filter _)
        have hpres : ∀ k ∈ evictRemoved cfg s, lookupA s.cache k ≠ none := by
          intro k hk
          rw [evictRemoved_eq] at hk
          have hev := (List.mem_filter.mp (List.take_subset _ _ hk)).2
          obtain ⟨e, he, _⟩ := evictable_spec hev
          simp [he]
        have hlen := removeKeysA_length (evictRemoved cfg s) s.cache hndR hpres
        rw [hcache]
        omega
      · right
        intro k hk hev
        rw [evictRemoved_eq, List.take_of_length_le (by omega)]
        exact List.mem_filter.mpr ⟨hk, hev⟩
  · intro T cfg s k n hl hn
    have hnotin : k ∉ evictRemoved cfg s := by
      intro hmem
      rw [evictRemoved_eq] at hmem
      have hev := (List.mem_filter.mp (List.take_subset _ _ hmem)).2
      obtain ⟨e, _, _, hzero⟩ := evictable_spec hev
      have := hzero n hl
      omega
    have hcache : (evict cfg s).cache = removeKeysA (evictRemoved cfg s) s.cache :=
      rfl
    rw [hcache, lookupA_removeKeysA_notMem _ _ hnotin]

/-- Witness for C4 on a concrete store: four fetched entries `a`..`d` in
that access order, a listener only on `c`, ceiling 2 — `a` and `b` are the
removed keys, the pass reaches the ceiling, and `c` survives. -/
theorem C4_eviction_witness :
    (∃ e, lookupA exStoreEvict.cache "a" = some e ∧ e.f.loading = false ∧
      (∀ n, lookupA exStoreEvict.listenerCount "a" = some n → n = 0)) ∧
    evictRemoved exCfgSmall exStoreEvict =
      (exStoreEvict.accessOrder.filter (evictable exStoreEvict)).take
        (exStoreEvict.cache.length - exCfgSmall.maxCacheSize) ∧
    ((evict exCfgSmall exStoreEvict).cache.length ≤ exCfgSmall.maxCacheSize ∨
      ∀ k ∈ exStoreEvict.accessOrder, evictable exStoreEvict k = true →
        k ∈ evictRemoved exCfgSmall exStoreEvict) ∧
    lookupA (evict exCfgSmall exStoreEvict).cache "c" =
      lookupA exStoreEvict.cache "c" := by
  refine ⟨?_, ?_, ?_, ?_⟩
  · exact C4_eviction.1 Nat exCfgSmall exStoreEvict "a" (by decide)
  · exact C4_eviction.2.1 Nat exCfgSmall exStoreEvict
  · exact C4_eviction.2.2.1 Nat exCfgSmall exStoreEvict (by decide)
  · exact C4_eviction.2.2.2 Nat exCfgSmall exStoreEvict "c" 1 (by decide)
      (by decide)

/-! ## Optimistic updates (spec-modelled) -/

/-- `setQueryData` stores exactly the given value. -/
theorem entryData_setQueryData_self {T : Type} [DecidableEq T] (s : QueryStore T)
    (k : String) (v : T) (now : Int) :
    entryData (setQueryData s k v now) k = some v := by
  unfold setQueryData
  rw [entryData_setEntry_self]

/-- C5.  For every `optimisticUpdate` run: the updater is applied to the
cached data synchronously (first event, before the remote outcome is
examined); on success the optimistic data stays, `onSuccess(result)` is
invoked and the result is returned; on failure the entry's data is rolled
back to exactly the pre-update data, `onError(error, snapshot)` is invoked
with that snapshot and the error is rethrown; `onSettled` is invoked exactly
once, last, on both paths. -/
theorem C5_optimistic_update :
    ∀ (T R : Type) [DecidableEq T] (s : QueryStore T) (k : String)
      (updater : Option T → T) (now : Int) (r : R) (e : Nat),
      (optimisticUpdate s k updater (Except.ok r) now).2.1 =
        [OUEvent.applied (updater (entryData s k)), OUEvent.successCb r,
         OUEvent.settled] ∧
      (optimisticUpdate s k updater (Except.ok r) now).2.2 = Except.ok r ∧
      entryData (optimisticUpdate s k updater (Except.ok r) now).1 k =
        some (updater (entryData s k)) ∧
      (optimisticUpdate (R := R) s k updater (Except.error e) now).2.1 =
        [OUEvent.applied (updater (entryData s k)),
         OUEvent.errorCb e (entryData s k), OUEvent.settled] ∧
      (optimisticUpdate (R := R) s k updater (Except.error e) now).2.2 =
        Except.error e ∧
      entryData (optimisticUpdate (R := R) s k updater (Except.error e) now).1 k =
        entryData s k := by
  intro T R _ s k updater now r e
  refine ⟨rfl, rfl, ?_, rfl, rfl, ?_⟩
  · unfold optimisticUpdate
    dsimp only
    rw [entryData_setQueryData_self]
  · unfold optimisticUpdate
    dsimp only
    rw [entryData_setEntry_self]

/-! ## Infinite next-page fetch lemmas -/

theorem setIEntry_lookup_self {P C : Type} (s : InfStore P C) (k : String)
    (e : IEntryF P C) : lookupA (setIEntry s k e).cache k = some e :=
  lookupA_setA_self _ _ _

/-- Extraction lemma: what `fetchNextStart` guarantees whenever it actually
issues a next-page fetch. -/
theorem fetchNextStart_some {P C : Type} {cfg : InfCfg P C} {s s1 : InfStore P C}
    {k : String} {c : C} (h : fetchNextStart cfg s k = (s1, some c)) :
    ∃ en d, lookupA s.cache k = some en ∧ en.data = some d ∧
      en.isFetchingNextPage = false ∧
      cfg.getNextPageParam d.pages.getLast? d.pages = some c ∧
      s1 = setIEntry s k { en with isFetchingNextPage := true } := by
  unfold fetchNextStart at h
  dsimp only at h
  cases hlk : lookupA s.cache k with
  | none =>
    have hg : getIEntry s k =
        ({ s with cache := setA s.cache k (defaultIEntryF P C) },
         defaultIEntryF P C) := by
      unfold getIEntry
      rw [hlk]
    rw [hg] at h
    simp [defaultIEntryF] at h
  | some en =>
    rw [getIEntry_of_lookup hlk] at h
    dsimp only at h
    cases hdata : en.data with
    | none =>
      rw [hdata] at h
      simp at h
    | some d =>
      rw [hdata] at h
      dsimp only at h
      by_cases hf : en.isFetchingNextPage = true
      · rw [if_pos hf] at h
        simp at h
      · rw [if_neg hf] at h
        cases hnp : cfg.getNextPageParam d.pages.getLast? d.pages with
        | none =>
          rw [hnp] at h
          simp at h
        | some c0 =>
          rw [hnp] at h
          simp only [Prod.mk.injEq, Option.some.injEq] at h
          obtain ⟨hs1, hc⟩ := h
          subst hc
          refine ⟨en, d, rfl, hdata, by simpa using hf, hnp, ?_⟩
          rw [hdata]
          exact hs1.symm

/-- C7.  If a next-page attempt is issued for an entry with data `d`, a
failing page fetch leaves the pages and page parameters exactly `d`'s and
sets the entry's error, while a successful one appends exactly one page (and
its cursor), so `pages.length` grows by exactly one. -/
theorem C7_next_page_error_and_success :
    ∀ (P C : Type) (cfg : InfCfg P C) (s s1 : InfStore P C) (k : String)
      (en : IEntryF P C) (d : InfData P C) (c : C) (pg : P) (err : Nat)
      (nowF nowS : Int),
      lookupA s.cache k = some en → en.data = some d →
      fetchNextStart cfg s k = (s1, some c) →
      (∃ e1, lookupA (fetchNextResolve s1 k c (Except.error err) nowF).cache k
          = some e1 ∧ e1.data = some d ∧ e1.error = some err ∧
          e1.isFetchingNextPage = false) ∧
      (∃ e2 d2, lookupA (fetchNextResolve s1 k c (Except.ok pg) nowS).cache k
          = some e2 ∧ e2.data = some d2 ∧
          d2.pages = d.pages ++ [pg] ∧ d2.pageParams = d.pageParams ++ [some c] ∧
          d2.pages.length = d.pages.length + 1) := by
  intro P C cfg s s1 k en d c pg err nowF nowS hlk hdata hstart
  obtain ⟨en', d', hlk', hdata', hnf, hnp, hs1⟩ := fetchNextStart_some hstart
  rw [hlk] at hlk'
  injection hlk' with he
  subst he
  rw [hdata] at hdata'
  injection hdata' with hd
  subst hd
  subst hs1
  have hq : getIEntry (setIEntry s k { en with isFetchingNextPage := true }) k =
      (setIEntry s k { en with isFetchingNextPage := true },
       { en with isFetchingNextPage := true }) :=
    getIEntry_of_lookup (setIEntry_lookup_self _ _ _)
  constructor
  · have hres : fetchNextResolve (setIEntry s k { en with isFetchingNextPage := true })
        k c (Except.error err) nowF =
        setIEntry (setIEntry s k { en with isFetchingNextPage := true }) k
          { en with isFetchingNextPage := false, error := some err } := by
      unfold fetchNextResolve
      dsimp only
      rw [hq]
    refine ⟨{ en with isFetchingNextPage := false, error := some err },
      ?_, ?_, rfl, rfl⟩
    · rw [hres]
      exact setIEntry_lookup_self _ _ _
    · exact hdata
  · have hres2 : fetchNextResolve (setIEntry s k { en with isFetchingNextPage := true })
        k c (Except.ok pg) nowS =
        setIEntry (setIEntry s k { en with isFetchingNextPage := true }) k
          { en with
            data := some { pages := d.pages ++ [pg],
                           pageParams := d.pageParams ++ [some c] },
            isFetchingNextPage := false, fetchedAt := nowS } := by
      unfold fetchNextResolve
      dsimp only
      rw [hq]
      dsimp only
      rw [hdata]
    refine ⟨{ en with
        data := some { pages := d.pages ++ [pg],
                       pageParams := d.pageParams ++ [some c] },
        isFetchingNextPage := false, fetchedAt := nowS },
      { pages := d.pages ++ [pg], pageParams := d.pageParams ++ [some c] },
      ?_, rfl, rfl, rfl, by simp⟩
    rw [hres2]
    exact setIEntry_lookup_self _ _ _

/-- Witness for C7: on a store holding one page `[100]`, cursor 101 is
issued; a failing fetch keeps `pages = [100]` and records error 9, a
successful fetch of page 55 yields `pages = [100, 55]`. -/
theorem C7_next_page_error_and_success_witness :
    (∃ e1, lookupA (fetchNextResolve exC7s1 "k" 101 (Except.error 9) 7).cache "k"
        = some e1 ∧
        e1.data = some { pages := [100], pageParams := [none] } ∧
        e1.error = some 9 ∧ e1.isFetchingNextPage = false) ∧
    (∃ e2 d2, lookupA (fetchNextResolve exC7s1 "k" 101 (Except.ok 55) 8).cache "k"
        = some e2 ∧ e2.data = some d2 ∧
        d2.pages = [100] ++ [55] ∧ d2.pageParams = [none] ++ [some 101] ∧
        d2.pages.length = ([100] : List Nat).length + 1) := by
  exact C7_next_page_error_and_success Nat Nat exInfCfgNext
    (exIStorePage exInfCfgNext) exC7s1 "k"
    { data := some { pages := [100], pageParams := [none] }, loading := false,
      error := none, fetchedAt := 5, isFetchingNextPage := false,
      isFetchingPreviousPage := false }
    { pages := [100], pageParams := [none] } 101 55 9 7 8
    (by decide) (by decide) (by decide)

/-! ## Pages/pageParams length-invariant lemmas -/

theorem lookupA_mem {α : Type} :
    ∀ {l : List (String × α)} {k : String} {v : α},
      lookupA l k = some v → (k, v) ∈ l := by
  intro l
  induction l with
  | nil => intro k v h; simp [lookupA] at h
  | cons hd t ih =>
    intro k v h
    obtain ⟨k₀, v₀⟩ := hd
    by_cases hk : k₀ = k
    · subst hk
      rw [lookupA, if_pos rfl] at h
      injection h with hv
      subst hv
      exact List.mem_cons_self _ _
    · rw [lookupA, if_neg hk] at h
      exact List.mem_cons_of_mem _ (ih h)

theorem mem_setA {α : Type} :
    ∀ {l : List (String × α)} {k : String} {v : α} {pr : String × α},
      pr ∈ setA l k v → pr ∈ l ∨ pr = (k, v) := by
  intro l
  induction l with
  | nil =>
    intro k v pr h
    simp [setA] at h
    exact Or.inr h
  | cons hd t ih =>
    intro k v pr h
    obtain ⟨k₀, v₀⟩ := hd
    by_cases hk : k₀ = k
    · subst hk
      rw [setA, if_pos rfl] at h
      rcases List.mem_cons.mp h with h1 | h1
      · exact Or.inr h1
      · exact Or.inl (List.mem_cons_of_mem _ h1)
    · rw [setA, if_neg hk] at h
      rcases List.mem_cons.mp h with h1 | h1
      · exact Or.inl (h1 ▸ List.mem_cons_self _ _)
      · rcases ih h1 with h2 | h2
        · exact Or.inl (List.mem_cons_of_mem _ h2)
        · exact Or.inr h2

theorem lenInvB_of_lookup {P C : Type} {s : InfStore P C} {k : String}
    {e : IEntryF P C} (hs : storeLenInvB s = true)
    (hlk : lookupA s.cache k = some e) : lenInvB e = true := by
  unfold storeLenInvB at hs
  rw [List.all_eq_true] at hs
  exact hs (k, e) (lookupA_mem hlk)

theorem storeLenInvB_setIEntry {P C : Type} {s : InfStore P C} {k : String}
    {e : IEntryF P C} (hs : storeLenInvB s = true) (he : lenInvB e = true) :
    storeLenInvB (setIEntry s k e) = true := by
  unfold storeLenInvB at hs ⊢
  rw [List.all_eq_true] at hs ⊢
  intro pr hpr
  have hpr' : pr ∈ setA s.cache k e := hpr
  rcases mem_setA hpr' with h1 | h1
  · exact hs pr h1
  · subst h1
    exact he

theorem lenInvB_getIEntry_snd {P C : Type} {s : InfStore P C} (k : String)
    (hs : storeLenInvB s = true) : lenInvB (getIEntry s k).2 = true := by
  unfold getIEntry
  cases hlk : lookupA s.cache k with
  | some e =>
    dsimp only
    exact lenInvB_of_lookup hs hlk
  | none => rfl

theorem storeLenInvB_getIEntry_fst {P C : Type} {s : InfStore P C} (k : String)
    (hs : storeLenInvB s = true) : storeLenInvB (getIEntry s k).1 = true := by
  unfold getIEntry
  cases hlk : lookupA s.cache k with
  | some e => exact hs
  | none =>
    dsimp only
    unfold storeLenInvB at hs ⊢
    rw [List.all_eq_true] at hs ⊢
    intro pr hpr
    have hpr' : pr ∈ setA s.cache k (defaultIEntryF P C) := hpr
    rcases mem_setA hpr' with h1 | h1
    · exact hs pr h1
    · subst h1
      rfl

theorem storeLenInvB_fetchInitialStart {P C : Type} [DecidableEq P] [DecidableEq C]
    (cfg : InfCfg P C) {s : InfStore P C} (k : String) (now : Int) (force : Bool)
    (hs : storeLenInvB s = true) :
    storeLenInvB (fetchInitialStart cfg s k now force).1 = true := by
  unfold fetchInitialStart
  dsimp only
  split
  · exact storeLenInvB_getIEntry_fst k hs
  · split
    · exact storeLenInvB_getIEntry_fst k hs
    · exact storeLenInvB_setIEntry (storeLenInvB_getIEntry_fst k hs)
        (lenInvB_getIEntry_snd k hs)

theorem storeLenInvB_fetchInitialResolve {P C : Type} {s : InfStore P C}
    (p : Pending) (res : Except Nat P) (now : Int)
    (hs : storeLenInvB s = true) :
    storeLenInvB (fetchInitialResolve (C := C) s p res now) = true := by
  unfold fetchInitialResolve
  cases res with
  | ok fp =>
    dsimp only
    split
    · exact storeLenInvB_setIEntry hs rfl
    · exact hs
  | error e =>
    dsimp only
    split
    · exact storeLenInvB_setIEntry (storeLenInvB_getIEntry_fst p.key hs)
        (lenInvB_getIEntry_snd p.key hs)
    · exact hs

theorem storeLenInvB_fetchNextStart {P C : Type} (cfg : InfCfg P C)
    {s : InfStore P C} (k : String) (hs : storeLenInvB s = true) :
    storeLenInvB (fetchNextStart cfg s k).1 = true := by
  unfold fetchNextStart
  dsimp only
  split
  · exact storeLenInvB_getIEntry_fst k hs
  · split
    · exact storeLenInvB_getIEntry_fst k hs
    · split
      · exact storeLenInvB_getIEntry_fst k hs
      · exact storeLenInvB_setIEntry (storeLenInvB_getIEntry_fst k hs)
          (lenInvB_getIEntry_snd k hs)

theorem storeLenInvB_fetchNextResolve {P C : Type} {s : InfStore P C}
    (k : String) (c : C) (res : Except Nat P) (now : Int)
    (hs : storeLenInvB s = true) :
    storeLenInvB (fetchNextResolve s k c res now) = true := by
  unfold fetchNextResolve
  cases res with
  | ok page =>
    dsimp only
    split
    · rename_i d heq
      apply storeLenInvB_setIEntry (storeLenInvB_getIEntry_fst k hs)
      have hcur := lenInvB_getIEntry_snd k hs
      unfold lenInvB at hcur ⊢
      rw [heq] at hcur
      simp only [List.length_append, List.length_cons, List.length_nil] at *
      simp only [Nat.beq_eq_true_eq] at hcur ⊢
      omega
    · exact storeLenInvB_getIEntry_fst k hs
  | error e =>
    dsimp only
    exact storeLenInvB_setIEntry (storeLenInvB_getIEntry_fst k hs)
      (lenInvB_getIEntry_snd k hs)

theorem storeLenInvB_fetchPreviousStart {P C : Type} (cfg : InfCfg P C)
    {s : InfStore P C} (k : String) (hs : storeLenInvB s = true) :
    storeLenInvB (fetchPreviousStart cfg s k).1 = true := by
  unfold fetchPreviousStart
  dsimp only
  split
  · exact storeLenInvB_getIEntry_fst k hs
  · exact storeLenInvB_getIEntry_fst k hs
  · split
    · exact storeLenInvB_getIEntry_fst k hs
    · split
      · exact storeLenInvB_getIEntry_fst k hs
      · exact storeLenInvB_setIEntry (storeLenInvB_getIEntry_fst k hs)
          (lenInvB_getIEntry_snd k hs)

theorem storeLenInvB_fetchPreviousResolve {P C : Type} {s : InfStore P C}
    (k : String) (c : C) (res : Except Nat P) (now : Int)
    (hs : storeLenInvB s = true) :
    storeLenInvB (fetchPreviousResolve s k c res now) = true := by
  unfold fetchPreviousResolve
  cases res with
  | ok page =>
    dsimp only
    split
    · rename_i d heq
      apply storeLenInvB_setIEntry (storeLenInvB_getIEntry_fst k hs)
      have hcur := lenInvB_getIEntry_snd k hs
      unfold lenInvB at hcur ⊢
      rw [heq] at hcur
      simp only [List.length_cons] at *
      simp only [Nat.beq_eq_true_eq] at hcur ⊢
      omega
    · exact storeLenInvB_getIEntry_fst k hs
  | error e =>
    dsimp only
    exact storeLenInvB_setIEntry (storeLenInvB_getIEntry_fst k hs)
      (lenInvB_getIEntry_snd k hs)

theorem storeLenInvB_invalidateI {P C : Type} {s : InfStore P C} (k : String)
    (hs : storeLenInvB s = true) : storeLenInvB (invalidateI s k) = true := by
  unfold invalidateI
  cases hlk : lookupA s.cache k with
  | some e =>
    have he : lenInvB e = true := lenInvB_of_lookup hs hlk
    exact storeLenInvB_setIEntry hs he
  | none => exact hs

/-- Counterexample for C6 as stated: starting from a single-page entry
(`pages = [100]`, `pageParams = [undefined]`), a successful
`fetchPreviousPage` with cursor 7 prepends that cursor, so the first element
of `pageParams` is `7`, not the sentinel `undefined` — the second conjunct
of the claimed invariant fails after `fetchPreviousPage`. -/
theorem C6_sentinel_cex :
    (fetchPreviousStart exInfCfgPrev (exIStorePage exInfCfgPrev) "k").2 = some 7 ∧
    lookupA exC6final.cache "k" = some
      { data := some { pages := [99, 100], pageParams := [some 7, none] },
        loading := false, error := none, fetchedAt := 6,
        isFetchingNextPage := false, isFetchingPreviousPage := false } ∧
    ¬ ([some 7, none] : List (Option Nat)).head? = some none := by
  decide

/-- C6 (amended: the `pages.length == pageParams.length` half of the
invariant holds after every operation of the infinite controller, including
all error paths; the first page parameter is the sentinel `undefined`
after an initial fetch or refetch commit, but a successful
`fetchPreviousPage` prepends its cursor, which then becomes the first page
parameter in place of the sentinel). -/
theorem C6_pages_params_invariant_amended :
    (∀ (P C : Type) [DecidableEq P] [DecidableEq C] (cfg : InfCfg P C)
        (s : InfStore P C) (k : String) (now : Int) (force : Bool),
      storeLenInvB s = true →
      storeLenInvB (fetchInitialStart cfg s k now force).1 = true) ∧
    (∀ (P C : Type) (s : InfStore P C) (p : Pending) (res : Except Nat P)
        (now : Int),
      storeLenInvB s = true →
      storeLenInvB (fetchInitialResolve (C := C) s p res now) = true) ∧
    (∀ (P C : Type) (cfg : InfCfg P C) (s : InfStore P C) (k : String),
      storeLenInvB s = true →
      storeLenInvB (fetchNextStart cfg s k).1 = true) ∧
    (∀ (P C : Type) (s : InfStore P C) (k : String) (c : C)
        (res : Except Nat P) (now : Int),
      storeLenInvB s = true →
      storeLenInvB (fetchNextResolve s k c res now) = true) ∧
    (∀ (P C : Type) (cfg : InfCfg P C) (s : InfStore P C) (k : String),
      storeLenInvB s = true →
      storeLenInvB (fetchPreviousStart cfg s k).1 = true) ∧
    (∀ (P C : Type) (s : InfStore P C) (k : String) (c : C)
        (res : Except Nat P) (now : Int),
      storeLenInvB s = true →
      storeLenInvB (fetchPreviousResolve s k c res now) = true) ∧
    (∀ (P C : Type) (s : InfStore P C) (k : String),
      storeLenInvB s = true → storeLenInvB (invalidateI s k) = true) ∧
    (∀ (P C : Type) (s : InfStore P C) (p : Pending) (fp : P) (now : Int),
      lookupA s.inflightId p.key = some p.reqId →
      ∃ e d, lookupA (fetchInitialResolve s p (Except.ok fp) now).cache p.key
          = some e ∧ e.data = some d ∧ d.pages = [fp] ∧ d.pageParams = [none]) ∧
    (∀ (P C : Type) (s : InfStore P C) (k : String) (c : C) (pg : P) (now : Int)
        (en : IEntryF P C) (d : InfData P C),
      lookupA s.cache k = some en → en.data = some d →
      ∃ e2 d2, lookupA (fetchPreviousResolve s k c (Except.ok pg) now).cache k
          = some e2 ∧ e2.data = some d2 ∧
          d2.pageParams = some c :: d.pageParams ∧ d2.pages = pg :: d.pages) := by
  refine ⟨?_, ?_, ?_, ?_, ?_, ?_, ?_, ?_, ?_⟩
  · intro P C _ _ cfg s k now force hs
    exact storeLenInvB_fetchInitialStart cfg k now force hs
  · intro P C s p res now hs
    exact storeLenInvB_fetchInitialResolve p res now hs
  · intro P C cfg s k hs
    exact storeLenInvB_fetchNextStart cfg k hs
  · intro P C s k c res now hs
    exact storeLenInvB_fetchNextResolve k c res now hs
  · intro P C cfg s k hs
    exact storeLenInvB_fetchPreviousStart cfg k hs
  · intro P C s k c res now hs
    exact storeLenInvB_fetchPreviousResolve k c res now hs
  · intro P C s k hs
    exact storeLenInvB_invalidateI k hs
  · intro P C s p fp now hlatest
    have hres : fetchInitialResolve s p (Except.ok fp) now =
        setIEntry s p.key
          { data := some { pages := [fp], pageParams := [none] },
            loading := false, error := none, fetchedAt := now,
            isFetchingNextPage := false, isFetchingPreviousPage := false } := by
      unfold fetchInitialResolve
      dsimp only
      rw [if_pos hlatest]
    refine ⟨{ data := some { pages := [fp], pageParams := [none] },
              loading := false, error := none, fetchedAt := now,
              isFetchingNextPage := false, isFetchingPreviousPage := false },
      { pages := [fp], pageParams := [none] }, ?_, rfl, rfl, rfl⟩
    rw [hres]
    exact setIEntry_lookup_self _ _ _
  · intro P C s k c pg now en d hlk hdata
    have hres : fetchPreviousResolve s k c (Except.ok pg) now =
        setIEntry s k
          { en with
            data := some { pages := pg :: d.pages,
                           pageParams := some c :: d.pageParams },
            isFetchingPreviousPage := false, fetchedAt := now } := by
      unfold fetchPreviousResolve
      dsimp only
      rw [getIEntry_of_lookup hlk]
      dsimp only
      rw [hdata]
    refine ⟨{ en with
        data := some { pages := pg :: d.pages,
                       pageParams := some c :: d.pageParams },
        isFetchingPreviousPage := false, fetchedAt := now },
      { pages := pg :: d.pages, pageParams := some c :: d.pageParams },
      ?_, rfl, rfl, rfl⟩
    rw [hres]
    exact setIEntry_lookup_self _ _ _

/-- Witness for C6 (amended), instantiating every conjunct on concrete runs
of the infinite controller. -/
theorem C6_pages_params_invariant_amended_witness :
    storeLenInvB (fetchInitialStart exInfCfgNext (emptyIStore Nat Nat)
      "k" 0 false).1 = true ∧
    storeLenInvB (fetchInitialResolve (C := Nat) exI1
      { key := "k", reqId := 1 } (Except.ok 100) 5) = true ∧
    storeLenInvB (fetchNextStart exInfCfgNext (exIStorePage exInfCfgNext)
      "k").1 = true ∧
    storeLenInvB (fetchNextResolve exC7s1 "k" 101 (Except.ok 55) 8) = true ∧
    storeLenInvB (fetchPreviousStart exInfCfgPrev (exIStorePage exInfCfgPrev)
      "k").1 = true ∧
    storeLenInvB (fetchPreviousResolve
      (fetchPreviousStart exInfCfgPrev (exIStorePage exInfCfgPrev) "k").1
      "k" 7 (Except.ok 99) 6) = true ∧
    storeLenInvB (invalidateI (exIStorePage exInfCfgPrev) "k") = true ∧
    (∃ e d, lookupA (fetchInitialResolve exI1 { key := "k", reqId := 1 }
        (Except.ok 100) 5).cache "k" = some e ∧ e.data = some d ∧
        d.pages = [100] ∧ d.pageParams = [none]) ∧
    (∃ e2 d2, lookupA (fetchPreviousResolve (exIStorePage exInfCfgPrev)
        "k" 7 (Except.ok 99) 6).cache "k" = some e2 ∧ e2.data = some d2 ∧
        d2.pageParams = some 7 :: [none] ∧ d2.pages = 99 :: [100]) := by
  refine ⟨?_, ?_, ?_, ?_, ?_, ?_, ?_, ?_, ?_⟩
  · exact C6_pages_params_invariant_amended.1 Nat Nat exInfCfgNext
      (emptyIStore Nat Nat) "k" 0 false (by decide)
  · exact C6_pages_params_invariant_amended.2.1 Nat Nat exI1
      { key := "k", reqId := 1 } (Except.ok 100) 5 (by decide)
  · exact C6_pages_params_invariant_amended.2.2.1 Nat Nat exInfCfgNext
      (exIStorePage exInfCfgNext) "k" (by decide)
  · exact C6_pages_params_invariant_amended.2.2.2.1 Nat Nat exC7s1 "k" 101
      (Except.ok 55) 8 (by decide)
  · exact C6_pages_params_invariant_amended.2.2.2.2.1 Nat Nat exInfCfgPrev
      (exIStorePage exInfCfgPrev) "k" (by decide)
  · exact C6_pages_params_invariant_amended.2.2.2.2.2.1 Nat Nat
      (fetchPreviousStart exInfCfgPrev (exIStorePage exInfCfgPrev) "k").1
      "k" 7 (Except.ok 99) 6 (by decide)
  · exact C6_pages_params_invariant_amended.2.2.2.2.2.2.1 Nat Nat
      (exIStorePage exInfCfgPrev) "k" (by decide)
  · exact C6_pages_params_invariant_amended.2.2.2.2.2.2.2.1 Nat Nat exI1
      { key := "k", reqId := 1 } 100 5 (by decide)
  · exact C6_pages_params_invariant_amended.2.2.2.2.2.2.2.2 Nat Nat
      (exIStorePage exInfCfgPrev) "k" 7 99 6
      { data := some { pages := [100], pageParams := [none] },
        loading := false, error := none, fetchedAt := 5,
        isFetchingNextPage := false, isFetchingPreviousPage := false }
      { pages := [100], pageParams := [none] } (by decide) (by decide)

/-! ## Computed-engine loop lemmas -/

/-- Each loop iteration either takes the skip branch (cached result present,
recorded non-empty dependency set disjoint from the changed set) or invokes
the derivation. -/
theorem recomputeStep_cases {V : Type} [DecidableEq V] (acc : CompAcc V)
    (k : String) (fn : CFun V) :
    (∃ c ds, lookupA acc.cached k = some c ∧ lookupA acc.deps k = some ds ∧
      ds ≠ [] ∧ (∀ d ∈ ds, d ∉ acc.changed) ∧
      recomputeStep acc k fn = { acc with stateObj := setA acc.stateObj k c }) ∨
    recomputeStep acc k fn = recomputeRun acc k fn := by
  unfold recomputeStep
  cases hc : lookupA acc.cached k with
  | none => exact Or.inr rfl
  | some c =>
    cases hd : lookupA acc.deps k with
    | none => exact Or.inr rfl
    | some ds =>
      by_cases hcond : ds ≠ [] ∧ ∀ d ∈ ds, d ∉ acc.changed
      · refine Or.inl ⟨c, ds, rfl, rfl, hcond.1, hcond.2, ?_⟩
        dsimp only
        rw [if_pos hcond]
      · refine Or.inr ?_
        dsimp only
        rw [if_neg hcond]

theorem recomputeStep_skip {V : Type} [DecidableEq V] {acc : CompAcc V}
    {k : String} {c : V} {ds : List String} (fn : CFun V)
    (hc : lookupA acc.cached k = some c) (hd : lookupA acc.deps k = some ds)
    (hne : ds ≠ []) (hall : ∀ d ∈ ds, d ∉ acc.changed) :
    recomputeStep acc k fn = { acc with stateObj := setA acc.stateObj k c } := by
  unfold recomputeStep
  rw [hc, hd]
  dsimp only
  rw [if_pos ⟨hne, hall⟩]

theorem recomputeStep_changed_mono {V : Type} [DecidableEq V] (acc : CompAcc V)
    (k : String) (fn : CFun V) {x : String} (h : x ∈ acc.changed) :
    x ∈ (recomputeStep acc k fn).changed := by
  rcases recomputeStep_cases acc k fn with ⟨c, ds, _, _, _, _, hstep⟩ | hstep <;>
    rw [hstep]
  · exact h
  · unfold recomputeRun
    dsimp only
    split
    · exact List.mem_append_left _ h
    · exact h

theorem recomputeStep_invoked_mono {V : Type} [DecidableEq V] (acc : CompAcc V)
    (k : String) (fn : CFun V) {x : String} (h : x ∈ acc.invoked) :
    x ∈ (recomputeStep acc k fn).invoked := by
  rcases recomputeStep_cases acc k fn with ⟨c, ds, _, _, _, _, hstep⟩ | hstep <;>
    rw [hstep]
  · exact h
  · exact List.mem_append_left _ h

theorem recomputeStep_invoked_mem_rev {V : Type} [DecidableEq V] {acc : CompAcc V}
    {k₀ k : String} (fn : CFun V) (hne : k ≠ k₀)
    (h : k ∈ (recomputeStep acc k₀ fn).invoked) : k ∈ acc.invoked := by
  rcases recomputeStep_cases acc k₀ fn with ⟨c, ds, _, _, _, _, hstep⟩ | hstep <;>
    rw [hstep] at h
  · exact h
  · rcases List.mem_append.mp h with h1 | h1
    · exact h1
    · exact absurd (List.mem_singleton.mp h1) hne

theorem recomputeStep_deps_ne {V : Type} [DecidableEq V] (acc : CompAcc V)
    (k₀ : String) (fn : CFun V) {k : String} (hne : k ≠ k₀) :
    lookupA (recomputeStep acc k₀ fn).deps k = lookupA acc.deps k := by
  rcases recomputeStep_cases acc k₀ fn with ⟨c, ds, _, _, _, _, hstep⟩ | hstep
  · rw [hstep]
  · rw [hstep]
    unfold recomputeRun
    dsimp only
    exact lookupA_setA_ne _ _ hne

theorem recomputeStep_cached_ne {V : Type} [DecidableEq V] (acc : CompAcc V)
    (k₀ : String) (fn : CFun V) {k : String} (hne : k ≠ k₀) :
    lookupA (recomputeStep acc k₀ fn).cached k = lookupA acc.cached k := by
  rcases recomputeStep_cases acc k₀ fn with ⟨c, ds, _, _, _, _, hstep⟩ | hstep
  · rw [hstep]
  · rw [hstep]
    unfold recomputeRun
    dsimp only
    exact lookupA_setA_ne _ _ hne

/-- A derivation whose recorded dependency set has a member in the current
changed set is invoked (the skip condition fails). -/
theorem recomputeStep_runs_invoked {V : Type} [DecidableEq V] {acc : CompAcc V}
    {k : String} {ds : List String} (fn : CFun V)
    (hd : lookupA acc.deps k = some ds) (hdep : ∃ d ∈ ds, d ∈ acc.changed) :
    k ∈ (recomputeStep acc k fn).invoked := by
  rcases recomputeStep_cases acc k fn with ⟨c, ds', _, hd', _, hall, hstep⟩ | hstep <;>
    rw [hstep]
  · obtain ⟨d, hdds, hdch⟩ := hdep
    rw [hd] at hd'
    injection hd' with he
    subst he
    exact absurd hdch (hall d hdds)
  · exact List.mem_append_right _ (List.mem_singleton.mpr rfl)

/-- A derivation whose recorded dependency set is empty is invoked —
the skip condition requires a non-empty set. -/
theorem recomputeStep_empty_runs {V : Type} [DecidableEq V] {acc : CompAcc V}
    {k : String} (fn : CFun V) (hd : lookupA acc.deps k = some []) :
    k ∈ (recomputeStep acc k fn).invoked := by
  rcases recomputeStep_cases acc k fn with ⟨c, ds', _, hd', hne, _, hstep⟩ | hstep <;>
    rw [hstep]
  · rw [hd] at hd'
    injection hd' with he
    exact absurd he.symm hne
  · exact List.mem_append_right _ (List.mem_singleton.mpr rfl)

/-- A step that changes the cached value of its own key (by identity) marks
that key changed. -/
theorem recomputeStep_cached_changed {V : Type} [DecidableEq V] {acc : CompAcc V}
    {k : String} (fn : CFun V)
    (h : lookupA (recomputeStep acc k fn).cached k ≠ lookupA acc.cached k) :
    k ∈ (recomputeStep acc k fn).changed := by
  rcases recomputeStep_cases acc k fn with ⟨c, ds, _, _, _, _, hstep⟩ | hstep <;>
    rw [hstep] at h ⊢
  · exact absurd rfl h
  · unfold recomputeRun at h ⊢
    dsimp only at h ⊢
    rw [lookupA_setA_self] at h
    rw [if_pos h]
    exact List.mem_append_right _ (List.mem_singleton.mpr rfl)

theorem recomputeLoop_append {V : Type} [DecidableEq V] (l1 l2 : List (String × CFun V)) :
    ∀ acc : CompAcc V,
      recomputeLoop (l1 ++ l2) acc = recomputeLoop l2 (recomputeLoop l1 acc) := by
  induction l1 with
  | nil => intro acc; rfl
  | cons kf rest ih =>
    intro acc
    obtain ⟨k, fn⟩ := kf
    exact ih (recomputeStep acc k fn)

theorem recomputeLoop_changed_mono {V : Type} [DecidableEq V] :
    ∀ (keys : List (String × CFun V)) (acc : CompAcc V) (x : String),
      x ∈ acc.changed → x ∈ (recomputeLoop keys acc).changed := by
  intro keys
  induction keys with
  | nil => intro acc x h; exact h
  | cons kf rest ih =>
    intro acc x h
    obtain ⟨k, fn⟩ := kf
    exact ih _ x (recomputeStep_changed_mono acc k fn h)

theorem recomputeLoop_invoked_mono {V : Type} [DecidableEq V] :
    ∀ (keys : List (String × CFun V)) (acc : CompAcc V) (x : String),
      x ∈ acc.invoked → x ∈ (recomputeLoop keys acc).invoked := by
  intro keys
  induction keys with
  | nil => intro acc x h; exact h
  | cons kf rest ih =>
    intro acc x h
    obtain ⟨k, fn⟩ := kf
    exact ih _ x (recomputeStep_invoked_mono acc k fn h)

theorem recomputeLoop_deps_notMem {V : Type} [DecidableEq V] :
    ∀ (keys : List (String × CFun V)) (acc : CompAcc V) (k : String),
      k ∉ keys.map Prod.fst →
      lookupA (recomputeLoop keys acc).deps k = lookupA acc.deps k := by
  intro keys
  induction keys with
  | nil => intro acc k _; rfl
  | cons kf rest ih =>
    intro acc k hk
    obtain ⟨k₀, fn⟩ := kf
    have hne : k ≠ k₀ := by
      intro hh
      exact hk (by simp [hh])
    have hrest : k ∉ rest.map Prod.fst := by
      intro hh
      exact hk (by simp [hh])
    calc lookupA (recomputeLoop ((k₀, fn) :: rest) acc).deps k
        = lookupA (recomputeStep acc k₀ fn).deps k := ih _ k hrest
      _ = lookupA acc.deps k := recomputeStep_deps_ne acc k₀ fn hne

theorem recomputeLoop_cached_notMem {V : Type} [DecidableEq V] :
    ∀ (keys : List (String × CFun V)) (acc : CompAcc V) (k : String),
      k ∉ keys.map Prod.fst →
      lookupA (recomputeLoop keys acc).cached k = lookupA acc.cached k := by
  intro keys
  induction keys with
  | nil => intro acc k _; rfl
  | cons kf rest ih =>
    intro acc k hk
    obtain ⟨k₀, fn⟩ := kf
    have hne : k ≠ k₀ := by
      intro hh
      exact hk (by simp [hh])
    have hrest : k ∉ rest.map Prod.fst := by
      intro hh
      exact hk (by simp [hh])
    calc lookupA (recomputeLoop ((k₀, fn) :: rest) acc).cached k
        = lookupA (recomputeStep acc k₀ fn).cached k := ih _ k hrest
      _ = lookupA acc.cached k := recomputeStep_cached_ne acc k₀ fn hne

/-- The skip lemma: a derivation with a cached value and a recorded
non-empty dependency set disjoint from the pass's final changed set is never
invoked during the loop and keeps its cached value. -/
theorem recomputeLoop_no_invoke {V : Type} [DecidableEq V] :
    ∀ (keys : List (String × CFun V)) (acc : CompAcc V) (k : String)
      (ds : List String) (c : V),
      lookupA acc.deps k = some ds → ds ≠ [] → lookupA acc.cached k = some c →
      (∀ d ∈ ds, d ∉ (recomputeLoop keys acc).changed) →
      ((k ∈ (recomputeLoop keys acc).invoked → k ∈ acc.invoked) ∧
        lookupA (recomputeLoop keys acc).cached k = some c) := by
  intro keys
  induction keys with
  | nil => intro acc k ds c _ _ hc _; exact ⟨fun h => h, hc⟩
  | cons kf rest ih =>
    intro acc k ds c hd hne hc hall
    obtain ⟨k₀, fn⟩ := kf
    have hloop : recomputeLoop ((k₀, fn) :: rest) acc =
        recomputeLoop rest (recomputeStep acc k₀ fn) := rfl
    rw [hloop] at hall ⊢
    by_cases hk : k₀ = k
    · subst hk
      have hallacc : ∀ d ∈ ds, d ∉ acc.changed := by
        intro d hdmem hdch
        exact hall d hdmem
          (recomputeLoop_changed_mono rest _ d
            (recomputeStep_changed_mono acc k₀ fn hdch))
      have hstep := recomputeStep_skip fn hc hd hne hallacc
      rw [hstep] at hall ⊢
      exact ih { acc with stateObj := setA acc.stateObj k₀ c } k₀ ds c hd hne hc hall
    · have hkne : k ≠ k₀ := fun hh => hk hh.symm
      have hd' : lookupA (recomputeStep acc k₀ fn).deps k = some ds := by
        rw [recomputeStep_deps_ne acc k₀ fn hkne]
        exact hd
      have hc' : lookupA (recomputeStep acc k₀ fn).cached k = some c := by
        rw [recomputeStep_cached_ne acc k₀ fn hkne]
        exact hc
      have hrec := ih (recomputeStep acc k₀ fn) k ds c hd' hne hc' hall
      exact ⟨fun h => recomputeStep_invoked_mem_rev fn hkne (hrec.1 h), hrec.2⟩

/-- A derivation whose recorded dependency set is empty is invoked on every
pass in which it is declared. -/
theorem recomputeLoop_empty_deps {V : Type} [DecidableEq V] :
    ∀ (keys : List (String × CFun V)) (acc : CompAcc V) (k : String),
      k ∈ keys.map Prod.fst → lookupA acc.deps k = some [] →
      k ∈ (recomputeLoop keys acc).invoked := by
  intro keys
  induction keys with
  | nil => intro acc k h _; simp at h
  | cons kf rest ih =>
    intro acc k hmem hd
    obtain ⟨k₀, fn⟩ := kf
    have hloop : recomputeLoop ((k₀, fn) :: rest) acc =
        recomputeLoop rest (recomputeStep acc k₀ fn) := rfl
    rw [hloop]
    by_cases hk : k = k₀
    · subst hk
      exact recomputeLoop_invoked_mono rest _ k (recomputeStep_empty_runs fn hd)
    · have hrest : k ∈ rest.map Prod.fst := by
        rw [List.map_cons] at hmem
        rcases List.mem_cons.mp hmem with h1 | h1
        · exact absurd h1 hk
        · exact h1
      have hd' : lookupA (recomputeStep acc k₀ fn).deps k = some [] := by
        rw [recomputeStep_deps_ne acc k₀ fn hk]
        exact hd
      exact ih _ k hrest hd'

/-- The cascade lemma: if a derivation `k1` declared before `k2` has its
cached value changed by the loop, and `k2`'s recorded dependency set (from
before the pass) contains `k1`, then `k2` is invoked.  The membership
hypotheses say each of `k1`, `k2` is declared only once. -/
theorem recomputeLoop_cascade {V : Type} [DecidableEq V]
    (l1 l2 l3 : List (String × CFun V)) (k1 k2 : String) (f1 f2 : CFun V)
    (acc : CompAcc V) (ds2 : List String)
    (hk1l1 : k1 ∉ l1.map Prod.fst) (hk1l2 : k1 ∉ l2.map Prod.fst)
    (hk1l3 : k1 ∉ l3.map Prod.fst) (hk1k2 : k1 ≠ k2)
    (hk2l1 : k2 ∉ l1.map Prod.fst) (hk2l2 : k2 ∉ l2.map Prod.fst)
    (hd2 : lookupA acc.deps k2 = some ds2) (hk1ds : k1 ∈ ds2)
    (hch : lookupA (recomputeLoop (l1 ++ (k1, f1) :: l2 ++ (k2, f2) :: l3)
      acc).cached k1 ≠ lookupA acc.cached k1) :
    k2 ∈ (recomputeLoop (l1 ++ (k1, f1) :: l2 ++ (k2, f2) :: l3) acc).invoked := by
  have hfull : recomputeLoop (l1 ++ (k1, f1) :: l2 ++ (k2, f2) :: l3) acc =
      recomputeLoop l3 (recomputeStep
        (recomputeLoop l2 (recomputeStep (recomputeLoop l1 acc) k1 f1)) k2 f2) := by
    calc recomputeLoop (l1 ++ (k1, f1) :: l2 ++ (k2, f2) :: l3) acc
        = recomputeLoop ((k2, f2) :: l3)
            (recomputeLoop (l1 ++ (k1, f1) :: l2) acc) :=
          recomputeLoop_append (l1 ++ (k1, f1) :: l2) _ acc
      _ = recomputeLoop ((k2, f2) :: l3)
            (recomputeLoop ((k1, f1) :: l2) (recomputeLoop l1 acc)) := by
          rw [recomputeLoop_append l1 _ acc]
      _ = recomputeLoop l3 (recomputeStep
            (recomputeLoop l2 (recomputeStep (recomputeLoop l1 acc) k1 f1))
            k2 f2) := rfl
  rw [hfull] at hch ⊢
  -- the cached value of k1 is only touched at k1's own step
  have hc01 : lookupA (recomputeLoop l1 acc).cached k1 = lookupA acc.cached k1 :=
    recomputeLoop_cached_notMem l1 acc k1 hk1l1
  have hc23 : lookupA (recomputeLoop l2
        (recomputeStep (recomputeLoop l1 acc) k1 f1)).cached k1 =
      lookupA (recomputeStep (recomputeLoop l1 acc) k1 f1).cached k1 :=
    recomputeLoop_cached_notMem l2 _ k1 hk1l2
  have hc34 : lookupA (recomputeStep
        (recomputeLoop l2 (recomputeStep (recomputeLoop l1 acc) k1 f1))
        k2 f2).cached k1 =
      lookupA (recomputeLoop l2
        (recomputeStep (recomputeLoop l1 acc) k1 f1)).cached k1 :=
    recomputeStep_cached_ne _ k2 f2 hk1k2
  have hc45 : lookupA (recomputeLoop l3 (recomputeStep
        (recomputeLoop l2 (recomputeStep (recomputeLoop l1 acc) k1 f1))
        k2 f2)).cached k1 =
      lookupA (recomputeStep
        (recomputeLoop l2 (recomputeStep (recomputeLoop l1 acc) k1 f1))
        k2 f2).cached k1 :=
    recomputeLoop_cached_notMem l3 _ k1 hk1l3
  have hchA : lookupA (recomputeStep (recomputeLoop l1 acc) k1 f1).cached k1 ≠
      lookupA (recomputeLoop l1 acc).cached k1 := by
    intro he
    exact hch (by rw [hc45, hc34, hc23, he, hc01])
  have hmark3 : k1 ∈ (recomputeLoop l2
      (recomputeStep (recomputeLoop l1 acc) k1 f1)).changed :=
    recomputeLoop_changed_mono l2 _ k1 (recomputeStep_cached_changed f1 hchA)
  -- k2 still carries its recorded dependency set when it is processed
  have hd3 : lookupA (recomputeLoop l2
      (recomputeStep (recomputeLoop l1 acc) k1 f1)).deps k2 = some ds2 := by
    rw [recomputeLoop_deps_notMem l2 _ k2 hk2l2,
      recomputeStep_deps_ne _ k1 f1 (Ne.symm hk1k2),
      recomputeLoop_deps_notMem l1 acc k2 hk2l1]
    exact hd2
  exact recomputeLoop_invoked_mono l3 _ k2
    (recomputeStep_runs_invoked f2 hd3 ⟨k1, hk1ds, hmark3⟩)

/-- C2.  During any `recompute` pass: a derivation that has a cached result
and a recorded non-empty dependency set none of whose members is ever in
this pass's changed set (changed raw fields plus changed earlier
derivations) is not invoked and keeps its cached value; and a derivation
`k1` whose cached value changes (by identity) during the pass is marked
changed, so any later-declared derivation `k2` whose recorded dependency set
contains `k1` is invoked. -/
theorem C2_dependency_skip_and_cascade :
    (∀ (V : Type) [DecidableEq V] (cfg : List (String × CFun V))
        (raw : List (String × V)) (cs : CompState V) (k : String)
        (ds : List String) (c : V),
      lookupA cs.deps k = some ds → ds ≠ [] → lookupA cs.cached k = some c →
      (∀ d ∈ ds, d ∉ (recompute cfg raw cs).2.2.2) →
      k ∉ (recompute cfg raw cs).2.2.1 ∧
        lookupA (recompute cfg raw cs).1.cached k = some c) ∧
    (∀ (V : Type) [DecidableEq V] (l1 l2 l3 : List (String × CFun V))
        (k1 k2 : String) (f1 f2 : CFun V) (raw : List (String × V))
        (cs : CompState V) (ds2 : List String),
      (((l1 ++ (k1, f1) :: l2 ++ (k2, f2) :: l3).map Prod.fst).Nodup) →
      lookupA cs.deps k2 = some ds2 → k1 ∈ ds2 →
      lookupA (recompute (l1 ++ (k1, f1) :: l2 ++ (k2, f2) :: l3) raw cs).1.cached
        k1 ≠ lookupA cs.cached k1 →
      k2 ∈ (recompute (l1 ++ (k1, f1) :: l2 ++ (k2, f2) :: l3) raw cs).2.2.1) := by
  constructor
  · intro V _ cfg raw cs k ds c hd hne hc hall
    have h := recomputeLoop_no_invoke cfg
      { stateObj := raw, changed := changedRawKeys raw cs.prevRaw,
        deps := cs.deps, cached := cs.cached, invoked := [] } k ds c hd hne hc hall
    constructor
    · intro hmem
      have h0 := h.1 hmem
      simp at h0
    · exact h.2
  · intro V _ l1 l2 l3 k1 k2 f1 f2 raw cs ds2 hnd hd2 hk1ds hch
    have hnd' : (l1.map Prod.fst ++
        k1 :: (l2.map Prod.fst ++ k2 :: l3.map Prod.fst)).Nodup := by
      simpa using hnd
    rw [List.nodup_append] at hnd'
    obtain ⟨hA, hB, hAB⟩ := hnd'
    rw [List.nodup_cons] at hB
    obtain ⟨hk1notin, hC⟩ := hB
    rw [List.nodup_append] at hC
    obtain ⟨hC1, hC2, hC12⟩ := hC
    have hk1l1 : k1 ∉ l1.map Prod.fst := fun h =>
      hAB h (List.mem_cons_self _ _)
    have hk1l2 : k1 ∉ l2.map Prod.fst := fun h =>
      hk1notin (List.mem_append_left _ h)
    have hk1k2 : k1 ≠ k2 := fun h =>
      hk1notin (List.mem_append_right _ (h ▸ List.mem_cons_self _ _))
    have hk1l3 : k1 ∉ l3.map Prod.fst := fun h =>
      hk1notin (List.mem_append_right _ (List.mem_cons_of_mem _ h))
    have hk2l1 : k2 ∉ l1.map Prod.fst := fun h =>
      hAB h (List.mem_cons_of_mem _ (List.mem_append_right _
        (List.mem_cons_self _ _)))
    have hk2l2 : k2 ∉ l2.map Prod.fst := fun h =>
      hC12 h (List.mem_cons_self _ _)
    exact recomputeLoop_cascade l1 l2 l3 k1 k2 f1 f2
      { stateObj := raw, changed := changedRawKeys raw cs.prevRaw,
        deps := cs.deps, cached := cs.cached, invoked := [] } ds2
      hk1l1 hk1l2 hk1l3 hk1k2 hk2l1 hk2l2 hd2 hk1ds hch

/-- Witness for C2: with derivations `dx` (reads `x`) then `dd` (reads
`dx`), after a first pass over `x=1, y=2`: replacing only `y` leaves `dx`
uninvoked with its cached value 2; replacing `x` with 10 changes `dx`'s
value, and `dd` (whose recorded dependency set is `[dx]`) is re-invoked. -/
theorem C2_dependency_skip_and_cascade_witness :
    ("dx" ∉ (recompute exCompCfg [("x", 1), ("y", 5)] exCompPass1).2.2.1 ∧
      lookupA (recompute exCompCfg [("x", 1), ("y", 5)] exCompPass1).1.cached
        "dx" = some 2) ∧
    "dd" ∈ (recompute ([] ++ ("dx", exDerivX) :: [] ++ ("dd", exDerivChain) :: [])
      [("x", 10)] exCompPass1).2.2.1 := by
  constructor
  · exact C2_dependency_skip_and_cascade.1 Nat exCompCfg [("x", 1), ("y", 5)]
      exCompPass1 "dx" ["x"] 2 (by decide) (by decide) (by decide) (by decide)
  · exact C2_dependency_skip_and_cascade.2 Nat [] [] [] "dx" "dd" exDerivX
      exDerivChain [("x", 10)] exCompPass1 ["dx"] (by decide) (by decide)
      (by decide) (by decide)

/-- C8.  A derivation whose recorded dependency set from a previous pass is
empty is re-invoked unconditionally on every pass, whatever the raw state
diff and cached results are. -/
theorem C8_empty_deps_always_recompute :
    ∀ (V : Type) [DecidableEq V] (cfg : List (String × CFun V))
      (raw : List (String × V)) (cs : CompState V) (k : String),
      k ∈ cfg.map Prod.fst → lookupA cs.deps k = some [] →
      k ∈ (recompute cfg raw cs).2.2.1 := by
  intro V _ cfg raw cs k hmem hd
  exact recomputeLoop_empty_deps cfg
    { stateObj := raw, changed := changedRawKeys raw cs.prevRaw,
      deps := cs.deps, cached := cs.cached, invoked := [] } k hmem hd

/-- Witness for C8: a constant derivation (empty recorded dependency set) is
re-invoked on a pass in which no raw field changed at all. -/
theorem C8_empty_deps_always_recompute_witness :
    "c" ∈ (recompute [("c", exDerivConst)] [("x", 1)] exConstPass1).2.2.1 := by
  exact C8_empty_deps_always_recompute Nat [("c", exDerivConst)] [("x", 1)]
    exConstPass1 "c" (by decide) (by decide)

end ZIL
